import Mathlib

/-!
FitForge, the workout session engine.

A shallow embedding of the session logic of `src/src/components/WorkoutPlayer.jsx`
(the React component `WorkoutPlayer`) and of the history write of
`src/src/components/WorkoutGenerator.jsx`.

Modelling conventions.

* The component state (`useState` cells) is the record `PlayerState`; the two
  `localStorage` keys the component writes are the record `LocalStorage`.
  An event handler reads the cells of the render it was created in and its
  `set...` calls are applied together, so a handler is a pure function from
  the pair of both records (`Session`) to the next pair.
* A JavaScript field that may be missing is an `Option`; `x || d` and the
  truthiness tests of the source are written out (`0` and a missing value
  are falsy).
* Instants (`new Date().toISOString()`) are natural numbers of milliseconds;
  a stored instant is a non-empty string in the source, hence always truthy.
-/

namespace FitForge

/-! ## Data model -/

/-- An exercise step as produced by `/api/workout/generate`: the AI draft
fields `name`, `sets`, `reps`, `duration`, `rest` and the catalog fields
`gifUrl`, `target`, `id` attached by the server. The set count is an integer
(`"sets": 3` in the server's plan format), on which `parseInt` is the
identity. -/
structure Exercise where
  name : String
  sets : Option Int
  reps : Option String
  duration : Option String
  rest : Option String
  target : Option String
  gifUrl : Option String
  id : Option String
deriving DecidableEq, Repr

/-- The `workout` property of the player. A missing phase list reads as the
empty list everywhere in the source (`workout?.warmup || []`,
`workout?.main?.length > 0`). -/
structure Workout where
  name : String
  description : String
  warmup : List Exercise
  main : List Exercise
  cooldown : List Exercise
  tips : List String
deriving DecidableEq, Repr

/-- The values of `currentPhase`. -/
inductive Phase where
  | warmup
  | main
  | cooldown
  | complete
deriving DecidableEq, Repr

/-- An entry of the `workoutHistory` array: the spread workout together with
the optional fields `startedAt`, `completedAt` and `duration`. -/
structure WorkoutRecord where
  workout : Workout
  startedAt : Option Nat
  completedAt : Option Nat
  duration : Option Nat
deriving DecidableEq, Repr

/-- The `useState` cells of `WorkoutPlayer`. -/
structure PlayerState where
  currentPhase : Phase
  currentExerciseIndex : Nat
  currentSet : Nat
  isResting : Bool
  timer : Nat
  isRunning : Bool
deriving DecidableEq, Repr

/-- The two `localStorage` keys written by the player: `workoutHistory` and
the `workoutDays` array of `streakData` (a missing key or field reads as the
empty array). A calendar day is the number of the day. -/
structure LocalStorage where
  workoutHistory : List WorkoutRecord
  workoutDays : List Nat
deriving DecidableEq, Repr

/-- Component state together with the persisted store. -/
structure Session where
  player : PlayerState
  storage : LocalStorage
deriving DecidableEq, Repr

/-! ## Helpers of the player -/

/-- Milliseconds in a day. -/
def msPerDay : Nat := 24 * 60 * 60 * 1000

/-- Milliseconds in an hour. -/
def msPerHour : Nat := 60 * 60 * 1000

/-- The calendar day of an instant (`toDateString`), with the time zone fixed
at UTC. -/
def toDateString (t : Nat) : Nat := t / msPerDay

/-- The six `useState` initial values (lines 6 to 11). -/
def useStateDefaults : PlayerState :=
  { currentPhase := Phase.warmup
    currentExerciseIndex := 0
    currentSet := 1
    isResting := false
    timer := 0
    isRunning := false }

/-- The state after the mount effect `if (workout) setIsRunning(true)`. -/
def initialState : PlayerState :=
  { useStateDefaults with isRunning := true }

/-- One callback of the one-second interval, which exists only while
`isRunning` holds: `setTimer(t => t + 1)`. -/
def tick (s : PlayerState) : PlayerState :=
  if s.isRunning then { s with timer := s.timer + 1 } else s

/-- The function `getCurrentExercises`. -/
def getCurrentExercises (workout : Workout) (currentPhase : Phase) : List Exercise :=
  match currentPhase with
  | Phase.warmup => workout.warmup
  | Phase.main => workout.main
  | Phase.cooldown => workout.cooldown
  | Phase.complete => []

/-- The value `currentExercise = currentExercises[currentExerciseIndex]`
(`undefined` is `none`). -/
def currentExercise (workout : Workout) (s : PlayerState) : Option Exercise :=
  (getCurrentExercises workout s.currentPhase)[s.currentExerciseIndex]?

/-- The value `currentExercise?.sets`. -/
def setsField (e : Option Exercise) : Option Int :=
  match e with
  | some ex => ex.sets
  | none => none

/-- JavaScript truthiness of an optional integer. -/
def truthy (v : Option Int) : Bool :=
  match v with
  | some n => decide (n ≠ 0)
  | none => false

/-- The value `parseInt(v) || 1` for an integer or missing `v`. -/
def parseIntOr1 (v : Option Int) : Int :=
  match v with
  | some n => if n = 0 then 1 else n
  | none => 1

/-- The value `totalExercises`. -/
def totalExercises (workout : Workout) : Nat :=
  workout.warmup.length + workout.main.length + workout.cooldown.length

/-! ## Finalization -/

/-- The object `workoutRecord` built by `completeWorkout`. -/
def workoutRecord (workout : Workout) (now : Nat) (timer : Nat) : WorkoutRecord :=
  { workout := workout
    startedAt := none
    completedAt := some now
    duration := some timer }

/-- The test `history.length > 0 && history[history.length - 1].startedAt`. -/
def lastHasStartedAt (history : List WorkoutRecord) : Bool :=
  decide (history.length > 0) &&
    (match history[history.length - 1]? with
     | some last => last.startedAt.isSome
     | none => false)

/-- The history written by `completeWorkout` (lines 119 to 133). -/
def saveToHistory (history : List WorkoutRecord) (r : WorkoutRecord) : List WorkoutRecord :=
  if lastHasStartedAt history then
    history.set (history.length - 1) r
  else
    history ++ [r]

/-- The streak update of `completeWorkout` (lines 136 to 142). -/
def markWorkoutDay (workoutDays : List Nat) (today : Nat) : List Nat :=
  if today ∈ workoutDays then workoutDays else workoutDays ++ [today]

/-- The function `completeWorkout`, run at instant `now`. -/
def completeWorkout (workout : Workout) (now : Nat) (a : Session) : Session :=
  { player := { a.player with isRunning := false, currentPhase := Phase.complete }
    storage :=
      { workoutHistory :=
          saveToHistory a.storage.workoutHistory (workoutRecord workout now a.player.timer)
        workoutDays := markWorkoutDay a.storage.workoutDays (toDateString now) } }

/-- The history write of `handleStartWorkout` in `WorkoutGenerator.jsx`. -/
def handleStartWorkout (generatedWorkout : Workout) (now : Nat) (st : LocalStorage) :
    LocalStorage :=
  { st with
    workoutHistory := st.workoutHistory ++
      [{ workout := generatedWorkout, startedAt := some now, completedAt := none,
         duration := none }] }

/-! ## Navigation handlers -/

/-- The guard of the set branch of `nextExercise` (lines 73 to 75):
`currentPhase === 'main' && currentExercise?.sets` and
`currentSet < totalSets`. -/
def setsRemain (workout : Workout) (s : PlayerState) : Bool :=
  decide (s.currentPhase = Phase.main) &&
    truthy (setsField (currentExercise workout s)) &&
    decide ((s.currentSet : Int) < parseIntOr1 (setsField (currentExercise workout s)))

/-- The function `nextExercise`, run at instant `now`. -/
def nextExercise (workout : Workout) (now : Nat) (a : Session) : Session :=
  let s := a.player
  if setsRemain workout s then
    { a with player := { s with currentSet := s.currentSet + 1, isResting := true } }
  else if (s.currentExerciseIndex : Int) <
      ((getCurrentExercises workout s.currentPhase).length : Int) - 1 then
    { a with player :=
        { s with isResting := false, currentSet := 1,
                 currentExerciseIndex := s.currentExerciseIndex + 1 } }
  else if s.currentPhase = Phase.warmup ∧ workout.main.length > 0 then
    { a with player :=
        { s with isResting := false, currentSet := 1,
                 currentPhase := Phase.main, currentExerciseIndex := 0 } }
  else if s.currentPhase = Phase.main ∧ workout.cooldown.length > 0 then
    { a with player :=
        { s with isResting := false, currentSet := 1,
                 currentPhase := Phase.cooldown, currentExerciseIndex := 0 } }
  else
    completeWorkout workout now { a with player := { s with isResting := false, currentSet := 1 } }

/-- The value `(n || 1) - 1` for a length `n`. -/
def lastIndexOr0 (n : Nat) : Nat := (if n = 0 then 1 else n) - 1

/-- The function `previousExercise`. -/
def previousExercise (workout : Workout) (a : Session) : Session :=
  let s := a.player
  if s.currentExerciseIndex > 0 then
    { a with player :=
        { s with currentExerciseIndex := s.currentExerciseIndex - 1,
                 currentSet := 1, isResting := false } }
  else if s.currentPhase = Phase.main ∧ workout.warmup.length > 0 then
    { a with player :=
        { s with currentPhase := Phase.warmup,
                 currentExerciseIndex := lastIndexOr0 workout.warmup.length } }
  else if s.currentPhase = Phase.cooldown ∧ workout.main.length > 0 then
    { a with player :=
        { s with currentPhase := Phase.main,
                 currentExerciseIndex := lastIndexOr0 workout.main.length } }
  else
    a

/-! ## The rendered controls -/

/-- The three navigation buttons of the player screen (lines 269 to 292). -/
inductive Control where
  | prev
  | done
  | skip
deriving DecidableEq, Repr

/-- Whether a control is on screen and enabled. The completion screen
(lines 170 to 197) has none of the three; the Prev button carries
`disabled={currentExerciseIndex === 0 && currentPhase === 'warmup'}`. -/
def enabled (s : PlayerState) (c : Control) : Bool :=
  if s.currentPhase = Phase.complete then false
  else
    match c with
    | Control.prev => !(decide (s.currentExerciseIndex = 0) && decide (s.currentPhase = Phase.warmup))
    | Control.done => true
    | Control.skip => true

/-- The `onClick` handler bound to each control. -/
def onClick (workout : Workout) (now : Nat) (c : Control) (a : Session) : Session :=
  match c with
  | Control.prev => previousExercise workout a
  | Control.done => nextExercise workout now a
  | Control.skip => nextExercise workout now a

/-- A press on a control: its handler runs when the control is on screen and
enabled, and nothing happens otherwise. -/
def press (workout : Workout) (now : Nat) (c : Control) (a : Session) : Session :=
  if enabled a.player c then onClick workout now c a else a

/-- The session after `n` successive calls of `nextExercise`. -/
def advanceN (workout : Workout) (now : Nat) : Nat → Session → Session
  | 0, a => a
  | n + 1, a => advanceN workout now n (nextExercise workout now a)

/-- The observable position of a session: phase, exercise index, set number
and rest flag. -/
def position (a : Session) : Phase × Nat × Nat × Bool :=
  (a.player.currentPhase, a.player.currentExerciseIndex, a.player.currentSet,
    a.player.isResting)

/-- The positions of the first `n` sessions visited by successive calls of
`nextExercise`, the starting session included. -/
def visited (workout : Workout) (now : Nat) : Nat → Session → List (Phase × Nat × Nat × Bool)
  | 0, _ => []
  | n + 1, a => position a :: visited workout now n (nextExercise workout now a)

/-! ## Sample data -/

/-- A step with only a name and an optional set count. -/
def step (name : String) (sets : Option Int) : Exercise :=
  { name := name, sets := sets, reps := none, duration := none, rest := none,
    target := none, gifUrl := none, id := none }

/-- A plan with the given three phase lists. -/
def plan (warmup main cooldown : List Exercise) : Workout :=
  { name := "plan", description := "", warmup := warmup, main := main,
    cooldown := cooldown, tips := [] }

/-- A session at the given position with a running clock at zero. -/
def sessionAt (p : Phase) (i k : Nat) (r : Bool) (st : LocalStorage) : Session :=
  { player := { currentPhase := p, currentExerciseIndex := i, currentSet := k,
                isResting := r, timer := 0, isRunning := true }
    storage := st }

/-- The empty store. -/
def emptyStorage : LocalStorage := { workoutHistory := [], workoutDays := [] }

/-- The session a freshly mounted player starts from, over a given store. -/
def initialSession (st : LocalStorage) : Session :=
  { player := initialState, storage := st }

/-- Two main exercises of three sets each, nothing else. -/
def twoByThree : Workout :=
  plan [] [step "Push-ups" (some 3), step "Squats" (some 3)] []

/-! ## Conditions of a phase change -/

/-- The current exercise has no set left to do: the set branch of
`nextExercise` is not taken. -/
def noSetLeft (workout : Workout) (s : PlayerState) : Prop :=
  setsRemain workout s = false

/-- The exercise index is not before the last index of the current list
(the test of line 84 fails). -/
def onLastExercise (workout : Workout) (s : PlayerState) : Prop :=
  ¬ ((s.currentExerciseIndex : Int) <
      ((getCurrentExercises workout s.currentPhase).length : Int) - 1)

instance (workout : Workout) (s : PlayerState) : Decidable (noSetLeft workout s) := by
  unfold noSetLeft
  infer_instance

instance (workout : Workout) (s : PlayerState) : Decidable (onLastExercise workout s) := by
  unfold onLastExercise
  infer_instance

/-! ## Double arithmetic -/

/-- Rounding of a rational to the nearest integer, a tie going to the even
neighbour: the rounding of the significand in IEEE 754 binary64
arithmetic. -/
def roundHalfEven (m : ℚ) : ℤ :=
  if m - (⌊m⌋ : ℚ) < 1 / 2 then ⌊m⌋
  else if 1 / 2 < m - (⌊m⌋ : ℚ) then ⌊m⌋ + 1
  else if ⌊m⌋ % 2 = 0 then ⌊m⌋ else ⌊m⌋ + 1

/-- The spacing of the doubles around a positive number: `2^(e - 52)` where
`2^e` is the largest power of two not above the number. -/
def ulpOf (x : ℚ) : ℚ := (2 : ℚ) ^ (Int.log 2 x - 52)

/-- The double nearest to a positive number (significand of 53 bits). -/
def roundPos (x : ℚ) : ℚ := (roundHalfEven (x / ulpOf x) : ℚ) * ulpOf x

/-- The value of a JavaScript number operation whose exact result is `x`: the
nearest number with a significand of 53 bits, ties to even. The exponent is
not bounded here, so the function is the arithmetic of the doubles on results
of magnitude between `2^-1022` and `2^1024`; the operands of this program
that are rounded with it (quotients of list lengths, their products with 100,
day counts) are in that range or zero. -/
def roundDouble (x : ℚ) : ℚ :=
  if 0 < x then roundPos x else if x < 0 then -roundPos (-x) else 0

/-! ## Progress -/

/-- The function `getCompletedCount` (lines 29 to 34). -/
def getCompletedCount (workout : Workout) (s : PlayerState) : Nat :=
  (if s.currentPhase = Phase.main then workout.warmup.length else 0) +
    (if s.currentPhase = Phase.cooldown then workout.warmup.length + workout.main.length
     else 0) +
    s.currentExerciseIndex

/-- The value `progress` (line 36), `(getCompletedCount() / totalExercises) *
100` in the arithmetic of the doubles: the quotient is rounded, then the
product. The two counts are sums of array lengths and an index into an
array, integers far below `2^53`, which the doubles hold exactly. -/
def progress (workout : Workout) (s : PlayerState) : ℚ :=
  if totalExercises workout > 0 then
    roundDouble
      (roundDouble ((getCompletedCount workout s : ℚ) / (totalExercises workout : ℚ)) * 100)
  else
    0

/-- The width of the progress bar where it is on screen: the completion
screen (lines 170 to 197) has no progress bar. -/
def progressBar (workout : Workout) (s : PlayerState) : Option ℚ :=
  if s.currentPhase = Phase.complete then none else some (progress workout s)

/-- From the words of the specification: the summed lengths of the phases
fully passed when the session is in the given phase, in the order warmup,
main, cooldown, complete. -/
def specPassedLength (workout : Workout) : Phase → Nat
  | Phase.warmup => 0
  | Phase.main => workout.warmup.length
  | Phase.cooldown => workout.warmup.length + workout.main.length
  | Phase.complete => workout.warmup.length + workout.main.length + workout.cooldown.length

/-! ## Runs of the player -/

/-- What can happen to a mounted player: a call of `nextExercise` at some
instant, a call of `previousExercise`, a callback of the timer interval. -/
inductive Event where
  | advance (now : Nat)
  | retreat
  | tick
deriving DecidableEq, Repr

/-- The session after one event. -/
def applyEvent (workout : Workout) (e : Event) (a : Session) : Session :=
  match e with
  | Event.advance now => nextExercise workout now a
  | Event.retreat => previousExercise workout a
  | Event.tick => { a with player := tick a.player }

/-- The session after a sequence of events, the first event first. -/
def runEvents (workout : Workout) : List Event → Session → Session
  | [], a => a
  | e :: es, a => runEvents workout es (applyEvent workout e a)

/-- A session that some sequence of events produces from the initial state
over some store. -/
def Reachable (workout : Workout) (a : Session) : Prop :=
  ∃ (es : List Event) (st : LocalStorage), a = runEvents workout es (initialSession st)

/-- The exercise index is usable in the current phase: it is an index into
the current list, or it is 0 on an empty list; in phase `complete` it is 0
or below the total number of exercises. -/
def indexOk (workout : Workout) (s : PlayerState) : Prop :=
  match s.currentPhase with
  | Phase.complete => s.currentExerciseIndex = 0 ∨ s.currentExerciseIndex < totalExercises workout
  | p =>
    s.currentExerciseIndex < (getCurrentExercises workout p).length ∨
      ((getCurrentExercises workout p).length = 0 ∧ s.currentExerciseIndex = 0)

/-! ## The rest time -/

/-- The first match of the regular expression `(\d+)` in a string: the
leftmost run of decimal digits, as long as possible; `none` when the string
has no digit. -/
def matchDigits (cs : List Char) : Option (List Char) :=
  match cs.dropWhile (fun c => !c.isDigit) with
  | [] => none
  | c :: rest => some ((c :: rest).takeWhile Char.isDigit)

/-- The mathematical integer written by a run of decimal digits (the value
`mathInt` in the definition of `parseInt`, radix 10). -/
def parseDigits (ds : List Char) : Nat :=
  ds.foldl (fun n c => 10 * n + (c.toNat - 48)) 0

/-- A value of type Number that `getRestTime` can return: a finite double or
`Infinity`. -/
inductive NumberValue
  | finite (q : ℚ)
  | infinity
  deriving DecidableEq

/-- The Number value of a mathematical value: the nearest double, ties to
even, and `Infinity` once the rounded magnitude reaches `2^1024`. -/
def toNumberValue (v : ℚ) : NumberValue :=
  if roundDouble v < 2 ^ 1024 then NumberValue.finite (roundDouble v) else NumberValue.infinity

/-- The value of `parseInt` on a non-empty run of decimal digits: the Number
value of its mathematical integer. (For more than 20 significant digits an
implementation may read the digits after the 20th as zeros; the integer is
taken exactly here.) -/
def parseInt (ds : List Char) : NumberValue :=
  toNumberValue (parseDigits ds : ℚ)

/-- The body of `getRestTime` (lines 63 to 67) as a function of the value
`currentExercise?.rest`; a missing and an empty string are falsy. -/
def restTimeOf (rest : Option String) : NumberValue :=
  match rest with
  | none => NumberValue.finite 60
  | some r =>
    if r.data = [] then NumberValue.finite 60
    else
      match matchDigits r.data with
      | some run => parseInt run
      | none => NumberValue.finite 60

/-- The value `currentExercise?.rest`. -/
def restField (e : Option Exercise) : Option String :=
  match e with
  | some ex => ex.rest
  | none => none

/-- The function `getRestTime`. -/
def getRestTime (workout : Workout) (s : PlayerState) : NumberValue :=
  restTimeOf (restField (currentExercise workout s))

/-! ## The streak of `ProgressDashboard` -/

/-- The local time of the environment, as `Date` uses it. Calendar days are
numbered in order, day 0 being 1 January 1970. `dayOf` is the calendar day
that `toDateString()` prints for an instant; `midnight` is the instant
`new Date(s)` for the string `s` that `toDateString()` prints on a day, the
start of that day in local time. -/
structure Zone where
  dayOf : Int → Int
  midnight : Int → Int

/-- A zone without clock changes, `offset` milliseconds ahead of UTC. -/
def fixedOffset (offset : Int) : Zone :=
  { dayOf := fun t => (t + offset) / (msPerDay : Int),
    midnight := fun d => d * (msPerDay : Int) - offset }

/-- The zone UTC, in which `toDateString` above is taken. -/
def utc : Zone := fixedOffset 0

/-- The instant 2026-11-01T06:00:00Z, at which the clocks of New York go back
from 02:00 to 01:00. -/
def fallBack2026 : Int := 1793512800000

/-- The zone of New York around 1 November 2026: four hours behind UTC before
`fallBack2026`, five hours behind from then on. The first of November has 25
hours there. -/
def newYork : Zone :=
  { dayOf := fun t =>
      if t < fallBack2026 then (t - 4 * (msPerHour : Int)) / (msPerDay : Int)
      else (t - 5 * (msPerHour : Int)) / (msPerDay : Int),
    midnight := fun d =>
      if d * (msPerDay : Int) + 4 * (msPerHour : Int) < fallBack2026 then
        d * (msPerDay : Int) + 4 * (msPerHour : Int)
      else
        d * (msPerDay : Int) + 5 * (msPerHour : Int) }

/-- The instant `new Date(d)` of a stored calendar day: its local
midnight. -/
def dateOf (zone : Zone) (d : Nat) : Int := zone.midnight (d : Int)

/-- The loop over `sortedDays` (lines 47 to 54): `checkDate` is the cursor,
the last argument the streak counted so far. The cursor moves back by 24
hours (line 51), whatever the length of the local day. -/
def streakLoop (zone : Zone) : List Int → Int → Nat → Nat
  | [], _, streak => streak
  | day :: rest, checkDate, streak =>
    if zone.dayOf day = zone.dayOf checkDate then
      streakLoop zone rest (checkDate - (msPerDay : Int)) (streak + 1)
    else if day < checkDate then
      streak
    else
      streakLoop zone rest checkDate streak

/-- The array `sortedDays` (lines 42 to 44): the stored days as instants,
latest first. -/
def sortedDays (zone : Zone) (workoutDays : List Nat) : List Int :=
  (workoutDays.map (dateOf zone)).insertionSort (fun a b => a ≥ b)

/-- The value `currentStreak` computed by `stats` at instant `now`. -/
def currentStreak (zone : Zone) (workoutDays : List Nat) (now : Nat) : Nat :=
  if (sortedDays zone workoutDays).length > 0 then
    streakLoop zone (sortedDays zone workoutDays) (now : Int) 0
  else
    0

/-- From the words of the specification: the day `i` days before today is a
stored workout day. -/
def dayBackStored (zone : Zone) (workoutDays : List Nat) (now : Nat) (i : Nat) : Prop :=
  ∃ d ∈ workoutDays, (d : Int) = zone.dayOf (now : Int) - (i : Int)

/-! ## The counts of `ProgressDashboard` -/

/-- The instant `weekAgo` (line 23). -/
def weekAgo (now : Nat) : Int := (now : Int) - 7 * 24 * 60 * 60 * 1000

/-- The instant `monthAgo` (line 24). -/
def monthAgo (now : Nat) : Int := (now : Int) - 30 * 24 * 60 * 60 * 1000

/-- The filter test `new Date(w.completedAt) >= bound`: a record without
`completedAt` gives an invalid date, on which the comparison is false. -/
def completedSince (bound : Int) (w : WorkoutRecord) : Bool :=
  match w.completedAt with
  | some t => decide ((t : Int) ≥ bound)
  | none => false

/-- The array `weekWorkouts` (lines 26 to 28). -/
def weekWorkouts (workoutHistory : List WorkoutRecord) (now : Nat) : List WorkoutRecord :=
  workoutHistory.filter (completedSince (weekAgo now))

/-- The array `monthWorkouts` (lines 30 to 32). -/
def monthWorkouts (workoutHistory : List WorkoutRecord) (now : Nat) : List WorkoutRecord :=
  workoutHistory.filter (completedSince (monthAgo now))

/-- From the words of the specification: the record was completed in the
closed window of `days` days ending at `now`. -/
def specInWindow (days : Nat) (now : Nat) (w : WorkoutRecord) : Bool :=
  match w.completedAt with
  | some t => decide ((now : Int) - (days : Int) * 24 * 60 * 60 * 1000 ≤ (t : Int) ∧ t ≤ now)
  | none => false

/-! ## The recovery estimate of the server -/

/-- A workout object as the endpoint `/api/recovery/estimate` reads it from
the request body: the `main` list, the field `date` and the field
`completedAt`. -/
structure PostedWorkout where
  main : List Exercise
  date : Option Nat
  completedAt : Option Nat
deriving DecidableEq, Repr

/-- The request object of a history record: the record's own fields, among
which there is no `date`. -/
def toPosted (r : WorkoutRecord) : PostedWorkout :=
  { main := r.workout.main, date := none, completedAt := r.completedAt }

/-- The two recommendation texts of the endpoint. -/
inductive Recommendation where
  | restDay
  | lightWorkout
deriving DecidableEq, Repr

/-- The text of a recommendation (lines 453 to 455). -/
def Recommendation.text : Recommendation → String
  | Recommendation.restDay => "Take a rest day or do light stretching"
  | Recommendation.lightWorkout => "You can do a light workout targeting different muscles"

/-- The response object of the endpoint (lines 450 to 457). -/
structure RecoveryEstimate where
  estimatedHours : Nat
  musclesWorked : List String
  recommendation : Recommendation
  nextWorkoutDate : Nat
deriving DecidableEq, Repr

/-- The array `musclesWorked` (line 430): the targets of the main steps that
are present and not the empty string. -/
def musclesWorked (main : List Exercise) : List String :=
  main.filterMap (fun e =>
    match e.target with
    | some t => if t.data = [] then none else some t
    | none => none)

/-- The array `[...new Set(xs)]`: the first occurrence of every value, in
order. -/
def newSet : List String → List String
  | [] => []
  | x :: xs => x :: (newSet xs).filter (fun y => decide (y ≠ x))

/-- The filter test of `last48Hours` (lines 440 to 444): a missing `date`
gives an invalid date, on which the comparison is false. -/
def inLast48Hours (now : Nat) (w : PostedWorkout) : Bool :=
  match w.date with
  | some d => decide ((((now : Int) - (d : Int) : Int) : ℚ) / (1000 * 60 * 60) < 48)
  | none => false

/-- The value `recoveryHours` before the response is built (lines 434 to
448). -/
def recoveryHours (workout : PostedWorkout) (previousWorkouts : List PostedWorkout)
    (now : Nat) : Nat :=
  24 + (newSet (musclesWorked workout.main)).length * 6 +
    (if (previousWorkouts.filter (inLast48Hours now)).length > 0 then 12 else 0)

/-- The handler of `POST /api/recovery/estimate`, run at instant `now`. -/
def estimateRecovery (workout : PostedWorkout) (previousWorkouts : List PostedWorkout)
    (now : Nat) : RecoveryEstimate :=
  { estimatedHours := min (recoveryHours workout previousWorkouts now) 72
    musclesWorked := newSet (musclesWorked workout.main)
    recommendation :=
      if recoveryHours workout previousWorkouts now > 48 then Recommendation.restDay
      else Recommendation.lightWorkout
    nextWorkoutDate := now + recoveryHours workout previousWorkouts now * 60 * 60 * 1000 }

/-- The request of `RecoveryStatus` (lines 276 to 291): none when the last
history record has no `completedAt`, otherwise the last record together with
`workoutHistory.slice(-5)`. -/
def recoveryRequest (workoutHistory : List WorkoutRecord) :
    Option (PostedWorkout × List PostedWorkout) :=
  match workoutHistory[workoutHistory.length - 1]? with
  | some lastWorkout =>
    if lastWorkout.completedAt.isSome then
      some (toPosted lastWorkout,
        (workoutHistory.drop (workoutHistory.length - 5)).map toPosted)
    else none
  | none => none

/-! ## The enrichment of the server -/

/-- The fields of a catalog exercise that the enrichment reads. The service
sends `id`, `name` and `target`; a `gifUrl` is present only where the entry
carries one. -/
structure CatalogEntry where
  id : String
  name : String
  target : String
  gifUrl : Option String
deriving DecidableEq, Repr

/-- The test `s.includes(t)` on character lists: `t` starts at some position
of `s`. -/
def includes (s t : List Char) : Bool := s.tails.any (fun u => t.isPrefixOf u)

/-- The predicate passed to `exercises.find` (lines 404 to 407), with the
function `lower` standing for JavaScript's `toLowerCase`, which lowers every
cased letter of the Unicode tables. -/
def nameMatchesWith (lower : String → List Char) (exercise : Exercise) (e : CatalogEntry) :
    Bool :=
  includes (lower e.name) (lower exercise.name) ||
    includes (lower exercise.name) (lower e.name)

/-- The function mapped over `workout.main` (lines 403 to 413), for a given
lower-casing. -/
def enrichExerciseWith (lower : String → List Char) (exercises : List CatalogEntry)
    (exercise : Exercise) : Exercise :=
  match exercises.find? (nameMatchesWith lower exercise) with
  | some m => { exercise with gifUrl := m.gifUrl, target := some m.target, id := some m.id }
  | none => { exercise with gifUrl := none, target := none, id := none }

/-- The object `enrichedWorkout` (lines 401 to 415), for a given
lower-casing. -/
def enrichWorkoutWith (lower : String → List Char) (exercises : List CatalogEntry)
    (workout : Workout) : Workout :=
  { workout with main := workout.main.map (enrichExerciseWith lower exercises) }

/-- The characters of `s.toLowerCase()` for a string whose cased letters are
among A to Z: these are lowered, every other character is kept. -/
def toLowerCase (s : String) : List Char := s.data.map Char.toLower

/-- The predicate passed to `exercises.find` on names whose cased letters are
among A to Z. -/
def nameMatches (exercise : Exercise) (e : CatalogEntry) : Bool :=
  includes (toLowerCase e.name) (toLowerCase exercise.name) ||
    includes (toLowerCase exercise.name) (toLowerCase e.name)

/-- The function mapped over `workout.main` on names whose cased letters are
among A to Z. -/
def enrichExercise (exercises : List CatalogEntry) (exercise : Exercise) : Exercise :=
  match exercises.find? (nameMatches exercise) with
  | some m => { exercise with gifUrl := m.gifUrl, target := some m.target, id := some m.id }
  | none => { exercise with gifUrl := none, target := none, id := none }

/-- The object `enrichedWorkout` on names whose cased letters are among A
to Z. -/
def enrichWorkout (exercises : List CatalogEntry) (workout : Workout) : Workout :=
  { workout with main := workout.main.map (enrichExercise exercises) }

/-! ## The number of calls that finish a session -/

/-- The calls of `nextExercise` spent on a main exercise entered at set 1. -/
def setCost (e : Exercise) : Nat := (max (parseIntOr1 e.sets) 1).toNat

/-- The bound on the calls of `nextExercise` from the initial state to phase
`complete`. -/
def callBound (workout : Workout) : Nat :=
  max workout.warmup.length 1 + (workout.main.map setCost).sum + workout.cooldown.length

/-- The sets still to be announced on the current exercise. -/
def setsLeft (workout : Workout) (s : PlayerState) : Nat :=
  if setsRemain workout s then
    (parseIntOr1 (setsField (currentExercise workout s)) - (s.currentSet : Int)).toNat
  else 0

/-- The calls of `nextExercise` that certainly lead from a state to phase
`complete`. -/
def callsLeft (workout : Workout) (s : PlayerState) : Nat :=
  match s.currentPhase with
  | Phase.warmup =>
    max (workout.warmup.length - s.currentExerciseIndex) 1 +
      (workout.main.map setCost).sum + workout.cooldown.length
  | Phase.main =>
    setsLeft workout s + 1 +
      ((workout.main.drop (s.currentExerciseIndex + 1)).map setCost).sum +
      workout.cooldown.length
  | Phase.cooldown => max (workout.cooldown.length - s.currentExerciseIndex) 1
  | Phase.complete => 0

/-! ## Sample data for the recovery estimate -/

/-- A main step of three sets with a target muscle. -/
def targeted (name target : String) : Exercise :=
  { name := name, sets := some 3, reps := none, duration := none, rest := none,
    target := some target, gifUrl := none, id := none }

/-- A plan whose main steps work three muscles. -/
def threeMuscles : Workout :=
  plan [] [targeted "Push-ups" "chest", targeted "Rows" "back", targeted "Plank" "abs"] []

/-- A plan whose main steps work the ten muscles offered by the generator. -/
def tenMuscles : Workout :=
  plan [] (["chest", "back", "shoulders", "biceps", "triceps", "abs", "glutes", "quads",
    "hamstrings", "calves"].map (fun t => targeted t t)) []

/-! ## Stepping back to the previous phase -/

/-- From the words of the specification: the previous non-empty phase of a
phase, in the order warmup, main, cooldown; there is none before warmup, and
from `complete` there is no way back. -/
def specPreviousPhase (workout : Workout) : Phase → Option Phase
  | Phase.warmup => none
  | Phase.main => if workout.warmup ≠ [] then some Phase.warmup else none
  | Phase.cooldown =>
    if workout.main ≠ [] then some Phase.main
    else if workout.warmup ≠ [] then some Phase.warmup
    else none
  | Phase.complete => none

/-- From the words of the specification: the session positioned at the last
exercise index of a phase, nothing else changed. -/
def specAtLastOf (workout : Workout) (a : Session) (p : Phase) : Session :=
  { a with player :=
      { a.player with currentPhase := p,
                      currentExerciseIndex := (getCurrentExercises workout p).length - 1 } }

/-- The phases main and cooldown are entered only over non-empty lists: in
phase main the main list is non-empty, in phase cooldown the main and the
cooldown list are. -/
def phaseEntered (workout : Workout) (s : PlayerState) : Prop :=
  (s.currentPhase = Phase.main → workout.main ≠ []) ∧
    (s.currentPhase = Phase.cooldown → workout.main ≠ [] ∧ workout.cooldown ≠ [])

/-! ## Runs through the interface -/

/-- What the user and the clock can do to a mounted player: a press on one of
the three controls at some instant, or a callback of the timer interval. -/
inductive Gesture where
  | press (now : Nat) (c : Control)
  | tick
deriving DecidableEq, Repr

/-- The session after one gesture. -/
def applyGesture (workout : Workout) (g : Gesture) (a : Session) : Session :=
  match g with
  | Gesture.press now c => press workout now c a
  | Gesture.tick => { a with player := tick a.player }

/-- The session after a sequence of gestures, the first gesture first. -/
def runGestures (workout : Workout) : List Gesture → Session → Session
  | [], a => a
  | g :: gs, a => runGestures workout gs (applyGesture workout g a)

/-- The store of a session that started over the store `st`: either still
`st`, with the session not finished, or `st` with one finalized record saved
and its day marked, with the session finished and its clock stopped. -/
def oneRecordAtMost (workout : Workout) (st : LocalStorage) (a : Session) : Prop :=
  (a.player.currentPhase ≠ Phase.complete ∧ a.storage = st) ∨
    (a.player.currentPhase = Phase.complete ∧ a.player.isRunning = false ∧
      ∃ now timer : Nat, a.storage =
        { workoutHistory := saveToHistory st.workoutHistory (workoutRecord workout now timer)
          workoutDays := markWorkoutDay st.workoutDays (toDateString now) })

/-! ## Shared lemmas -/

theorem roundHalfEven_intCast (k : ℤ) : roundHalfEven (k : ℚ) = k := by
  simp [roundHalfEven]

theorem floor_le_roundHalfEven (m : ℚ) : ⌊m⌋ ≤ roundHalfEven m := by
  unfold roundHalfEven
  split_ifs <;> omega

theorem roundHalfEven_le_floor_succ (m : ℚ) : roundHalfEven m ≤ ⌊m⌋ + 1 := by
  unfold roundHalfEven
  split_ifs <;> omega

theorem roundHalfEven_mono {a b : ℚ} (h : a ≤ b) : roundHalfEven a ≤ roundHalfEven b := by
  have hfl : ⌊a⌋ ≤ ⌊b⌋ := Int.floor_mono h
  rcases lt_or_eq_of_le hfl with hlt | heq
  · calc roundHalfEven a ≤ ⌊a⌋ + 1 := roundHalfEven_le_floor_succ a
      _ ≤ ⌊b⌋ := by omega
      _ ≤ roundHalfEven b := floor_le_roundHalfEven b
  · have hfr : a - (⌊a⌋ : ℚ) ≤ b - (⌊b⌋ : ℚ) := by rw [heq]; linarith
    unfold roundHalfEven
    rw [heq]
    rw [heq] at hfr
    split_ifs <;> first | omega | (exfalso; linarith)

theorem le_roundHalfEven {m : ℚ} {k : ℤ} (h : (k : ℚ) ≤ m) : k ≤ roundHalfEven m := by
  have := roundHalfEven_mono h
  rwa [roundHalfEven_intCast] at this

theorem roundHalfEven_le {m : ℚ} {k : ℤ} (h : m ≤ (k : ℚ)) : roundHalfEven m ≤ k := by
  have := roundHalfEven_mono h
  rwa [roundHalfEven_intCast] at this

theorem ulpOf_pos (x : ℚ) : 0 < ulpOf x := by
  unfold ulpOf
  positivity

theorem two_zpow_log_le {x : ℚ} (hx : 0 < x) : (2 : ℚ) ^ Int.log 2 x ≤ x := by
  have := Int.zpow_log_le_self (b := 2) (by norm_num) hx
  simpa using this

theorem lt_two_zpow_log_succ (x : ℚ) : x < (2 : ℚ) ^ (Int.log 2 x + 1) := by
  have := Int.lt_zpow_succ_log_self (b := 2) (by norm_num) x
  simpa using this

/-- The significand of a positive number lies between `2^52` and `2^53`. -/
theorem significand_bounds {x : ℚ} (hx : 0 < x) :
    (2 : ℚ) ^ (52 : ℤ) ≤ x / ulpOf x ∧ x / ulpOf x < (2 : ℚ) ^ (53 : ℤ) := by
  have hu := ulpOf_pos x
  have h1 := two_zpow_log_le hx
  have h2 := lt_two_zpow_log_succ x
  have e1 : (2 : ℚ) ^ (52 : ℤ) * ulpOf x = (2 : ℚ) ^ Int.log 2 x := by
    unfold ulpOf
    rw [← zpow_add₀ (by norm_num : (2 : ℚ) ≠ 0)]
    congr 1
    ring
  have e2 : (2 : ℚ) ^ (53 : ℤ) * ulpOf x = (2 : ℚ) ^ (Int.log 2 x + 1) := by
    unfold ulpOf
    rw [← zpow_add₀ (by norm_num : (2 : ℚ) ≠ 0)]
    congr 1
    ring
  constructor
  · rw [le_div_iff₀ hu, e1]; exact h1
  · rw [div_lt_iff₀ hu, e2]; exact h2

theorem roundPos_bounds {x : ℚ} (hx : 0 < x) :
    (2 : ℚ) ^ Int.log 2 x ≤ roundPos x ∧ roundPos x ≤ (2 : ℚ) ^ (Int.log 2 x + 1) := by
  have hu := ulpOf_pos x
  obtain ⟨hlo, hhi⟩ := significand_bounds hx
  have hlo' : ((2 ^ 52 : ℤ) : ℚ) ≤ x / ulpOf x := by
    have : ((2 ^ 52 : ℤ) : ℚ) = (2 : ℚ) ^ (52 : ℤ) := by norm_num
    rw [this]; exact hlo
  have hhi' : x / ulpOf x ≤ ((2 ^ 53 : ℤ) : ℚ) := by
    have : ((2 ^ 53 : ℤ) : ℚ) = (2 : ℚ) ^ (53 : ℤ) := by norm_num
    rw [this]; exact le_of_lt hhi
  have k1 : ((2 ^ 52 : ℤ) : ℚ) ≤ (roundHalfEven (x / ulpOf x) : ℚ) := by
    exact_mod_cast le_roundHalfEven hlo'
  have k2 : (roundHalfEven (x / ulpOf x) : ℚ) ≤ ((2 ^ 53 : ℤ) : ℚ) := by
    exact_mod_cast roundHalfEven_le hhi'
  have e1 : ((2 ^ 52 : ℤ) : ℚ) * ulpOf x = (2 : ℚ) ^ Int.log 2 x := by
    unfold ulpOf
    have : ((2 ^ 52 : ℤ) : ℚ) = (2 : ℚ) ^ (52 : ℤ) := by norm_num
    rw [this, ← zpow_add₀ (by norm_num : (2 : ℚ) ≠ 0)]
    congr 1
    ring
  have e2 : ((2 ^ 53 : ℤ) : ℚ) * ulpOf x = (2 : ℚ) ^ (Int.log 2 x + 1) := by
    unfold ulpOf
    have : ((2 ^ 53 : ℤ) : ℚ) = (2 : ℚ) ^ (53 : ℤ) := by norm_num
    rw [this, ← zpow_add₀ (by norm_num : (2 : ℚ) ≠ 0)]
    congr 1
    ring
  unfold roundPos
  constructor
  · rw [← e1]; exact mul_le_mul_of_nonneg_right k1 (le_of_lt hu)
  · rw [← e2]; exact mul_le_mul_of_nonneg_right k2 (le_of_lt hu)

theorem roundPos_pos {x : ℚ} (hx : 0 < x) : 0 < roundPos x :=
  lt_of_lt_of_le (by positivity) (roundPos_bounds hx).1

theorem roundPos_mono {x y : ℚ} (hx : 0 < x) (h : x ≤ y) : roundPos x ≤ roundPos y := by
  have hy : 0 < y := lt_of_lt_of_le hx h
  have hlog : Int.log 2 x ≤ Int.log 2 y := Int.log_mono_right hx h
  rcases lt_or_eq_of_le hlog with hlt | heq
  · calc roundPos x ≤ (2 : ℚ) ^ (Int.log 2 x + 1) := (roundPos_bounds hx).2
      _ ≤ (2 : ℚ) ^ Int.log 2 y := zpow_le_zpow_right₀ (by norm_num) (by omega)
      _ ≤ roundPos y := (roundPos_bounds hy).1
  · have hu : ulpOf x = ulpOf y := by unfold ulpOf; rw [heq]
    unfold roundPos
    rw [hu]
    have hdiv : x / ulpOf y ≤ y / ulpOf y :=
      div_le_div_of_nonneg_right h (le_of_lt (ulpOf_pos y))
    have hr : (roundHalfEven (x / ulpOf y) : ℚ) ≤ (roundHalfEven (y / ulpOf y) : ℚ) := by
      exact_mod_cast roundHalfEven_mono hdiv
    exact mul_le_mul_of_nonneg_right hr (le_of_lt (ulpOf_pos y))

theorem roundDouble_nonneg {x : ℚ} (hx : 0 ≤ x) : 0 ≤ roundDouble x := by
  unfold roundDouble
  split_ifs with h1 h2
  · exact le_of_lt (roundPos_pos h1)
  · exact absurd hx (not_le.mpr h2)
  · exact le_refl _

theorem roundDouble_mono {x y : ℚ} (hx : 0 ≤ x) (h : x ≤ y) : roundDouble x ≤ roundDouble y := by
  rcases lt_or_eq_of_le hx with hpos | hzero
  · have hy : 0 < y := lt_of_lt_of_le hpos h
    simp only [roundDouble, hpos, hy, if_true]
    exact roundPos_mono hpos h
  · rw [← hzero]
    simp only [roundDouble, lt_irrefl, if_false]
    exact roundDouble_nonneg (le_trans hx h)

/-- A number `n * 2^k` with `n` below `2^53` is a double: rounding keeps it. -/
theorem roundDouble_dyadic (n : ℕ) (k : ℤ) (hn : n < 2 ^ 53) :
    roundDouble ((n : ℚ) * (2 : ℚ) ^ k) = (n : ℚ) * (2 : ℚ) ^ k := by
  rcases Nat.eq_zero_or_pos n with h0 | hpos
  · subst h0
    simp [roundDouble]
  · have hx : 0 < (n : ℚ) * (2 : ℚ) ^ k := by positivity
    set x : ℚ := (n : ℚ) * (2 : ℚ) ^ k with hxdef
    have hlt : x < (2 : ℚ) ^ (53 + k) := by
      have hn' : (n : ℚ) < (2 : ℚ) ^ (53 : ℤ) := by
        have h53 : ((2 ^ 53 : ℕ) : ℚ) = (2 : ℚ) ^ (53 : ℤ) := by norm_num
        rw [← h53]
        exact_mod_cast hn
      rw [zpow_add₀ (by norm_num : (2 : ℚ) ≠ 0)]
      exact mul_lt_mul_of_pos_right hn' (by positivity)
    have hlog : Int.log 2 x < 53 + k := by
      have h1 := two_zpow_log_le hx
      have h2 : (2 : ℚ) ^ Int.log 2 x < (2 : ℚ) ^ (53 + k) := lt_of_le_of_lt h1 hlt
      exact (zpow_lt_zpow_iff_right₀ (by norm_num : (1 : ℚ) < 2)).mp h2
    obtain ⟨j, hj⟩ : ∃ j : ℕ, k - (Int.log 2 x - 52) = (j : ℤ) :=
      ⟨(k - (Int.log 2 x - 52)).toNat, by omega⟩
    have hm : x / ulpOf x = ((n * 2 ^ j : ℕ) : ℤ) := by
      unfold ulpOf
      rw [hxdef, mul_div_assoc, ← zpow_sub₀ (by norm_num : (2 : ℚ) ≠ 0), hj]
      push_cast
      rw [zpow_natCast]
    simp only [roundDouble, hx, if_true, roundPos]
    rw [hm, roundHalfEven_intCast, ← hm]
    exact div_mul_cancel₀ x (ne_of_gt (ulpOf_pos x))

theorem roundDouble_natCast (n : ℕ) (hn : n < 2 ^ 53) : roundDouble (n : ℚ) = n := by
  have := roundDouble_dyadic n 0 hn
  simpa using this

theorem log_two_eq {x : ℚ} {e : ℤ} (hx : 0 < x) (h1 : (2 : ℚ) ^ e ≤ x)
    (h2 : x < (2 : ℚ) ^ (e + 1)) : Int.log 2 x = e := by
  have a1 : e ≤ Int.log 2 x := by
    have := (Int.zpow_le_iff_le_log (b := 2) (by norm_num) hx (x := e)).mp (by simpa using h1)
    exact this
  have a2 : Int.log 2 x < e + 1 := by
    have := (Int.lt_zpow_iff_log_lt (b := 2) (by norm_num) hx (x := e + 1)).mp
      (by simpa using h2)
    exact this
  omega

theorem roundHalfEven_of_near {m : ℚ} {k : ℤ} (h1 : (k : ℚ) - 1 / 2 < m)
    (h2 : m < (k : ℚ) + 1 / 2) : roundHalfEven m = k := by
  have hf1 : k - 1 ≤ ⌊m⌋ := by
    apply Int.le_floor.mpr
    push_cast
    linarith
  have hf2 : ⌊m⌋ ≤ k := by
    have : ⌊m⌋ < k + 1 := by
      apply Int.floor_lt.mpr
      push_cast
      linarith
    omega
  have hfl := Int.floor_le m
  have hfl2 := Int.lt_floor_add_one m
  rcases (by omega : ⌊m⌋ = k ∨ ⌊m⌋ = k - 1) with hk | hk
  · have hfr : m - (⌊m⌋ : ℚ) < 1 / 2 := by rw [hk]; linarith
    unfold roundHalfEven
    rw [if_pos hfr]
    exact hk
  · have hc : ((⌊m⌋ : ℤ) : ℚ) = (k : ℚ) - 1 := by rw [hk]; push_cast; ring
    have hfr : 1 / 2 < m - (⌊m⌋ : ℚ) := by rw [hc]; linarith
    have hfr2 : ¬ (m - (⌊m⌋ : ℚ) < 1 / 2) := not_lt.mpr (le_of_lt hfr)
    simp only [roundHalfEven, hfr2, hfr, if_false, if_true]
    omega

theorem roundHalfEven_tie (k : ℤ) :
    roundHalfEven ((k : ℚ) + 1 / 2) = if k % 2 = 0 then k else k + 1 := by
  have hfl : ⌊(k : ℚ) + 1 / 2⌋ = k := by
    rw [Int.floor_eq_iff]
    constructor <;> linarith
  have e1 : (k : ℚ) + 1 / 2 - (k : ℚ) = 1 / 2 := by ring
  simp only [roundHalfEven, hfl, e1, lt_irrefl, if_false]

theorem roundDouble_eval {x : ℚ} (e k : ℤ) (hx : 0 < x) (h1 : (2 : ℚ) ^ e ≤ x)
    (h2 : x < (2 : ℚ) ^ (e + 1)) (hk1 : (k : ℚ) - 1 / 2 < x / (2 : ℚ) ^ (e - 52))
    (hk2 : x / (2 : ℚ) ^ (e - 52) < (k : ℚ) + 1 / 2) :
    roundDouble x = (k : ℚ) * (2 : ℚ) ^ (e - 52) := by
  have hlog := log_two_eq hx h1 h2
  simp only [roundDouble, hx, if_true, roundPos, ulpOf, hlog]
  rw [roundHalfEven_of_near hk1 hk2]

theorem roundDouble_tie {x : ℚ} (e k : ℤ) (hx : 0 < x) (h1 : (2 : ℚ) ^ e ≤ x)
    (h2 : x < (2 : ℚ) ^ (e + 1)) (hk : x / (2 : ℚ) ^ (e - 52) = (k : ℚ) + 1 / 2) :
    roundDouble x = ((if k % 2 = 0 then k else k + 1 : ℤ) : ℚ) * (2 : ℚ) ^ (e - 52) := by
  have hlog := log_two_eq hx h1 h2
  simp only [roundDouble, hx, if_true, roundPos, ulpOf, hlog]
  rw [hk, roundHalfEven_tie]

/-- The progress expression stays below 100 while the completed count is
below a total of at most `2^53`. -/
theorem roundDouble_percent_lt (i t : ℕ) (hit : i < t) (ht : t ≤ 2 ^ 53) :
    roundDouble (roundDouble ((i : ℚ) / (t : ℚ)) * 100) < 100 := by
  have htpos : (0 : ℚ) < (t : ℚ) := by
    have : 0 < t := by omega
    exact_mod_cast this
  have hu : roundDouble (((2 ^ 53 - 1 : ℕ) : ℚ) * (2 : ℚ) ^ (-53 : ℤ)) =
      ((2 ^ 53 - 1 : ℕ) : ℚ) * (2 : ℚ) ^ (-53 : ℤ) :=
    roundDouble_dyadic (2 ^ 53 - 1) (-53) (by norm_num)
  have hratio : (i : ℚ) / (t : ℚ) ≤ ((2 ^ 53 - 1 : ℕ) : ℚ) * (2 : ℚ) ^ (-53 : ℤ) := by
    rw [div_le_iff₀ htpos]
    have hi : (i : ℚ) + 1 ≤ (t : ℚ) := by exact_mod_cast hit
    have ht' : (t : ℚ) ≤ 2 ^ 53 := by exact_mod_cast ht
    norm_num
    nlinarith
  have h0 : (0 : ℚ) ≤ (i : ℚ) / (t : ℚ) := by positivity
  have hr1 := roundDouble_mono h0 hratio
  rw [hu] at hr1
  have hnn : (0 : ℚ) ≤ roundDouble ((i : ℚ) / (t : ℚ)) * 100 :=
    mul_nonneg (roundDouble_nonneg h0) (by norm_num)
  have hr2 := roundDouble_mono hnn
    (mul_le_mul_of_nonneg_right hr1 (by norm_num : (0 : ℚ) ≤ 100))
  have hval : roundDouble (((2 ^ 53 - 1 : ℕ) : ℚ) * (2 : ℚ) ^ (-53 : ℤ) * 100) =
      ((7036874417766399 : ℤ) : ℚ) * (2 : ℚ) ^ ((6 : ℤ) - 52) := by
    apply roundDouble_eval 6 7036874417766399 <;> norm_num
  rw [hval] at hr2
  refine lt_of_le_of_lt hr2 ?_
  norm_num

theorem setsRemain_of_declared (workout : Workout) (s : PlayerState) (e : Exercise) (N : Int)
    (hphase : s.currentPhase = Phase.main)
    (hcur : workout.main[s.currentExerciseIndex]? = some e)
    (hsets : e.sets = some N)
    (hlt : (s.currentSet : Int) < N) :
    setsRemain workout s = true := by
  have hN : N ≠ 0 := by omega
  simp [setsRemain, currentExercise, getCurrentExercises, hphase, hcur, setsField, hsets,
    truthy, parseIntOr1, hN, hlt]

theorem nextExercise_of_setsRemain (workout : Workout) (now : Nat) (a : Session)
    (h : setsRemain workout a.player = true) :
    nextExercise workout now a =
      { a with player :=
          { a.player with currentSet := a.player.currentSet + 1, isResting := true } } := by
  simp [nextExercise, h]

theorem nextExercise_complete_player (workout : Workout) (now : Nat) (a : Session)
    (h : a.player.currentPhase = Phase.complete) :
    (nextExercise workout now a).player =
      { a.player with isResting := false, currentSet := 1, isRunning := false } := by
  have hs : setsRemain workout a.player = false := by simp [setsRemain, h]
  have hi : ¬ ((a.player.currentExerciseIndex : Int) < -1) := by omega
  simp [nextExercise, hs, h, getCurrentExercises, completeWorkout, hi]

theorem advanceN_add (workout : Workout) (now : Nat) (m n : Nat) (a : Session) :
    advanceN workout now (m + n) a = advanceN workout now n (advanceN workout now m a) := by
  induction m generalizing a with
  | zero => simp [advanceN]
  | succ m ih => rw [Nat.add_right_comm, advanceN, ih, advanceN]

theorem advanceN_complete_player (workout : Workout) (now : Nat) (k : Nat) (a : Session)
    (hphase : a.player.currentPhase = Phase.complete)
    (hset : a.player.currentSet = 1)
    (hrest : a.player.isResting = false)
    (hrun : a.player.isRunning = false) :
    (advanceN workout now k a).player = a.player := by
  induction k generalizing a with
  | zero => rfl
  | succ k ih =>
    have hstep : (nextExercise workout now a).player = a.player := by
      rw [nextExercise_complete_player workout now a hphase]
      cases hp : a.player with
      | mk ph i c r t run =>
        rw [hp] at hset hrest hrun
        simp only at hset hrest hrun
        simp [hset, hrest, hrun]
    rw [advanceN, ih (nextExercise workout now a)
      (by rw [hstep]; exact hphase) (by rw [hstep]; exact hset)
      (by rw [hstep]; exact hrest) (by rw [hstep]; exact hrun), hstep]

theorem lastHasStartedAt_concat (init : List WorkoutRecord) (last : WorkoutRecord) :
    lastHasStartedAt (init ++ [last]) = last.startedAt.isSome := by
  simp [lastHasStartedAt]

theorem saveToHistory_concat_started (init : List WorkoutRecord) (last r : WorkoutRecord)
    (h : last.startedAt.isSome = true) :
    saveToHistory (init ++ [last]) r = init ++ [r] := by
  have hl : lastHasStartedAt (init ++ [last]) = true := by
    rw [lastHasStartedAt_concat]; exact h
  simp [saveToHistory, hl]

theorem saveToHistory_concat_not_started (init : List WorkoutRecord) (last r : WorkoutRecord)
    (h : last.startedAt = none) :
    saveToHistory (init ++ [last]) r = init ++ [last] ++ [r] := by
  have hl : lastHasStartedAt (init ++ [last]) = false := by
    rw [lastHasStartedAt_concat, h]; rfl
  simp [saveToHistory, hl]

theorem saveToHistory_nil (r : WorkoutRecord) : saveToHistory [] r = [r] := by
  simp [saveToHistory, lastHasStartedAt]

theorem roundHalfEven_abs_sub_le (m : ℚ) : |(roundHalfEven m : ℚ) - m| ≤ 1 / 2 := by
  have hfl := Int.floor_le m
  have hfl2 := Int.lt_floor_add_one m
  rw [abs_le]
  unfold roundHalfEven
  split_ifs with h1 h2 h3
  · constructor <;> linarith
  · push_cast
    constructor <;> linarith
  · constructor <;> linarith
  · push_cast
    constructor <;> linarith

/-- The relative error of one rounding is at most `2^-53`. -/
theorem roundDouble_rel_error {x : ℚ} (hx : 0 ≤ x) :
    |roundDouble x - x| ≤ x * (2 : ℚ) ^ (-53 : ℤ) := by
  rcases lt_or_eq_of_le hx with hpos | hzero
  · have hu := ulpOf_pos x
    have hr := roundHalfEven_abs_sub_le (x / ulpOf x)
    have e1 : roundDouble x - x = ((roundHalfEven (x / ulpOf x) : ℚ) - x / ulpOf x) * ulpOf x := by
      simp only [roundDouble, hpos, if_true, roundPos]
      field_simp
    have e2 : ulpOf x * (1 / 2) = (2 : ℚ) ^ Int.log 2 x * (2 : ℚ) ^ (-53 : ℤ) := by
      unfold ulpOf
      rw [← zpow_add₀ (by norm_num : (2 : ℚ) ≠ 0)]
      have : (1 / 2 : ℚ) = (2 : ℚ) ^ (-1 : ℤ) := by norm_num
      rw [this, ← zpow_add₀ (by norm_num : (2 : ℚ) ≠ 0)]
      congr 1
      ring
    rw [e1, abs_mul, abs_of_pos hu]
    calc |(roundHalfEven (x / ulpOf x) : ℚ) - x / ulpOf x| * ulpOf x
        ≤ 1 / 2 * ulpOf x := mul_le_mul_of_nonneg_right hr (le_of_lt hu)
      _ = (2 : ℚ) ^ Int.log 2 x * (2 : ℚ) ^ (-53 : ℤ) := by rw [← e2]; ring
      _ ≤ x * (2 : ℚ) ^ (-53 : ℤ) :=
          mul_le_mul_of_nonneg_right (two_zpow_log_le hpos) (by positivity)
  · rw [← hzero]
    simp [roundDouble]

/-- The error of the progress expression against the exact quotient. -/
theorem roundDouble_percent_error {q : ℚ} (hq : 0 ≤ q) :
    |roundDouble (roundDouble q * 100) - 100 * q| ≤ 100 * q / 2 ^ 51 := by
  have h1 := roundDouble_rel_error hq
  have hnn : (0 : ℚ) ≤ roundDouble q * 100 := mul_nonneg (roundDouble_nonneg hq) (by norm_num)
  have h2 := roundDouble_rel_error hnn
  rw [abs_le] at h1 h2 ⊢
  have e53 : (2 : ℚ) ^ (-53 : ℤ) = 1 / 2 ^ 53 := by norm_num
  rw [e53] at h1 h2
  obtain ⟨h1a, h1b⟩ := h1
  obtain ⟨h2a, h2b⟩ := h2
  have hup : roundDouble q ≤ 2 * q := by
    have : q * (1 / 2 ^ 53) ≤ q := by
      have : (1 / 2 ^ 53 : ℚ) ≤ 1 := by norm_num
      nlinarith
    linarith
  have hup2 : roundDouble q * 100 * (1 / 2 ^ 53) ≤ 2 * q * 100 * (1 / 2 ^ 53) := by
    have : (0 : ℚ) ≤ 100 * (1 / 2 ^ 53) := by norm_num
    nlinarith
  constructor
  · norm_num at h1a h1b h2a h2b hup2 ⊢
    linarith
  · norm_num at h1a h1b h2a h2b hup2 ⊢
    linarith

theorem roundDouble_percent_zero (t : ℚ) : roundDouble (roundDouble (0 / t) * 100) = 0 := by
  simp [roundDouble]

theorem roundDouble_percent_half : roundDouble (roundDouble ((1 : ℚ) / 2) * 100) = 50 := by
  have h1 : roundDouble ((1 : ℚ) / 2) = 1 / 2 := by
    have := roundDouble_dyadic 1 (-1) (by norm_num)
    norm_num at this
    simpa using this
  rw [h1]
  have h2 := roundDouble_natCast 50 (by norm_num)
  norm_num at h2 ⊢
  exact h2

theorem roundDouble_percent_third :
    roundDouble (roundDouble ((1 : ℚ) / 3) * 100) = 2345624805922133 / 70368744177664 := by
  have h1 : roundDouble ((1 : ℚ) / 3) =
      ((6004799503160661 : ℤ) : ℚ) * (2 : ℚ) ^ ((-2 : ℤ) - 52) := by
    apply roundDouble_eval (-2) 6004799503160661 <;> norm_num
  rw [h1]
  have h2 : roundDouble (((6004799503160661 : ℤ) : ℚ) * (2 : ℚ) ^ ((-2 : ℤ) - 52) * 100) =
      ((4691249611844266 : ℤ) : ℚ) * (2 : ℚ) ^ ((5 : ℤ) - 52) := by
    apply roundDouble_eval 5 4691249611844266 <;> norm_num
  rw [h2]
  norm_num

theorem roundDouble_hundred_thirds :
    roundDouble ((100 : ℚ) * 1 / 3) = 4691249611844267 / 140737488355328 := by
  have h : roundDouble ((100 : ℚ) * 1 / 3) =
      ((4691249611844267 : ℤ) : ℚ) * (2 : ℚ) ^ ((5 : ℤ) - 52) := by
    apply roundDouble_eval 5 4691249611844267 <;> norm_num
  rw [h]
  norm_num

theorem progress_eq (workout : Workout) (s : PlayerState) (c t : ℕ)
    (hc : getCompletedCount workout s = c) (ht : totalExercises workout = t) (hpos : 0 < t) :
    progress workout s = roundDouble (roundDouble ((c : ℚ) / (t : ℚ)) * 100) := by
  subst hc ht
  simp only [progress, gt_iff_lt, hpos, if_true]

/-! ## Set progression (C1, C2) -/

/-- C1: in a main-phase state that is not resting, whose current exercise
declares a set count `N` with `currentSet < N`, `nextExercise` increments
`currentSet` and sets `isResting`; phase, exercise index, clock and store
are unchanged. -/
theorem nextExercise_next_set (workout : Workout) (now : Nat) (a : Session)
    (e : Exercise) (N : Int)
    (hphase : a.player.currentPhase = Phase.main)
    (_hrest : a.player.isResting = false)
    (hcur : workout.main[a.player.currentExerciseIndex]? = some e)
    (hsets : e.sets = some N)
    (hlt : (a.player.currentSet : Int) < N) :
    nextExercise workout now a =
      { a with player :=
          { a.player with currentSet := a.player.currentSet + 1, isResting := true } } ∧
    (nextExercise workout now a).player.currentSet = a.player.currentSet + 1 ∧
    (nextExercise workout now a).player.isResting = true ∧
    (nextExercise workout now a).player.currentPhase = a.player.currentPhase ∧
    (nextExercise workout now a).player.currentExerciseIndex = a.player.currentExerciseIndex := by
  have h := nextExercise_of_setsRemain workout now a
    (setsRemain_of_declared workout a.player e N hphase hcur hsets hlt)
  refine ⟨h, ?_, ?_, ?_, ?_⟩ <;> rw [h]

/-- Witness of C1: the first set of a three-set exercise. -/
theorem nextExercise_next_set_witness :
    position (nextExercise twoByThree 0 (sessionAt Phase.main 0 1 false emptyStorage)) =
      (Phase.main, 0, 2, true) := by
  have h := (nextExercise_next_set twoByThree 0 (sessionAt Phase.main 0 1 false emptyStorage)
    (step "Push-ups" (some 3)) 3 rfl rfl rfl rfl (by decide)).1
  rw [h]
  rfl

/-- C2 (evaluation at the failing input): leaving the rest before set 2 of a
three-set exercise, `nextExercise` yields set 3 with `isResting` still
true, not set 2 with `isResting` false. -/
theorem nextExercise_leaving_rest_rechecks_sets :
    position (nextExercise twoByThree 0 (sessionAt Phase.main 0 2 true emptyStorage)) =
      (Phase.main, 0, 3, true) := by
  rfl

/-! ## The run over two exercises of three sets (C3) -/

/-- C3 (counterexample): on the plan of two main exercises with three sets
each, the first eleven positions visited from the initial state start in the
warmup phase, never contain exercise 0 at set 2 outside a rest, and reach
`complete` after seven calls. -/
theorem visited_twoByThree :
    visited twoByThree 0 11 (initialSession emptyStorage) =
      [(Phase.warmup, 0, 1, false), (Phase.main, 0, 1, false), (Phase.main, 0, 2, true),
       (Phase.main, 0, 3, true), (Phase.main, 1, 1, false), (Phase.main, 1, 2, true),
       (Phase.main, 1, 3, true), (Phase.complete, 1, 1, false), (Phase.complete, 1, 1, false),
       (Phase.complete, 1, 1, false), (Phase.complete, 1, 1, false)] ∧
    (Phase.main, 0, 2, false) ∉ visited twoByThree 0 11 (initialSession emptyStorage) := by
  decide

/-- The player state after each of the first seven calls of `nextExercise` on a
plan with no warmup, no cooldown and two main exercises of three sets. -/
theorem advanceN_two_by_three_players (workout : Workout) (now : Nat) (st : LocalStorage)
    (e0 e1 : Exercise)
    (hw : workout.warmup = []) (hc : workout.cooldown = [])
    (hm : workout.main = [e0, e1]) (h0 : e0.sets = some 3) (h1 : e1.sets = some 3) :
    position (advanceN workout now 1 (initialSession st)) = (Phase.main, 0, 1, false) ∧
    position (advanceN workout now 2 (initialSession st)) = (Phase.main, 0, 2, true) ∧
    position (advanceN workout now 4 (initialSession st)) = (Phase.main, 1, 1, false) ∧
    position (advanceN workout now 5 (initialSession st)) = (Phase.main, 1, 2, true) ∧
    (advanceN workout now 7 (initialSession st)).player =
      { currentPhase := Phase.complete, currentExerciseIndex := 1, currentSet := 1,
        isResting := false, timer := 0, isRunning := false } := by
  simp [advanceN, nextExercise, setsRemain, currentExercise, getCurrentExercises, setsField,
    truthy, parseIntOr1, initialSession, initialState, useStateDefaults, position,
    completeWorkout, hw, hc, hm, h0, h1]

/-- C3 (amended): for every plan with empty warmup and cooldown and two main
exercises of three sets each, the run of `nextExercise` from the initial
state starts in the warmup phase on the empty list, enters main exercise 0
at set 1, then a rest before set 2; later it enters exercise 1 at set 1, then
a rest before set 2; and it reaches `complete`, after which no further call
changes the player state. -/
theorem advance_two_by_three (workout : Workout) (now : Nat) (st : LocalStorage)
    (e0 e1 : Exercise)
    (hw : workout.warmup = []) (hc : workout.cooldown = [])
    (hm : workout.main = [e0, e1]) (h0 : e0.sets = some 3) (h1 : e1.sets = some 3) :
    position (initialSession st) = (Phase.warmup, 0, 1, false) ∧
    position (advanceN workout now 1 (initialSession st)) = (Phase.main, 0, 1, false) ∧
    position (advanceN workout now 2 (initialSession st)) = (Phase.main, 0, 2, true) ∧
    ∃ i j, 2 < i ∧ i + 1 < j ∧
      position (advanceN workout now i (initialSession st)) = (Phase.main, 1, 1, false) ∧
      position (advanceN workout now (i + 1) (initialSession st)) = (Phase.main, 1, 2, true) ∧
      (advanceN workout now j (initialSession st)).player.currentPhase = Phase.complete ∧
      ∀ k, (advanceN workout now (j + k) (initialSession st)).player =
        (advanceN workout now j (initialSession st)).player := by
  obtain ⟨p1, p2, p4, p5, p7⟩ :=
    advanceN_two_by_three_players workout now st e0 e1 hw hc hm h0 h1
  refine ⟨rfl, p1, p2, 4, 7, by decide, by decide, p4, p5, ?_, ?_⟩
  · rw [p7]
  · intro k
    rw [advanceN_add]
    apply advanceN_complete_player <;> rw [p7]

/-- Witness of C3 (amended): the plan `twoByThree`. -/
theorem advance_two_by_three_witness :
    position (advanceN twoByThree 0 1 (initialSession emptyStorage)) = (Phase.main, 0, 1, false) :=
  (advance_two_by_three twoByThree 0 emptyStorage (step "Push-ups" (some 3))
    (step "Squats" (some 3)) rfl rfl rfl rfl rfl).2.1

/-! ## Phase changes (C4, C5, C6) -/

/-- C4 (counterexample): from the only warmup exercise of a plan with an
empty main list and a non-empty cooldown list, `nextExercise` yields phase
`complete`, not `cooldown`; and from the last of two cooldown exercises it
yields `complete` with exercise index 1, not 0. -/
theorem nextExercise_skips_cooldown :
    noSetLeft (plan [step "Jumping Jacks" none] [] [step "Stretch" none]) initialState ∧
    onLastExercise (plan [step "Jumping Jacks" none] [] [step "Stretch" none]) initialState ∧
    position (nextExercise (plan [step "Jumping Jacks" none] [] [step "Stretch" none]) 0
      (initialSession emptyStorage)) = (Phase.complete, 0, 1, false) ∧
    position (nextExercise (plan [] [] [step "Stretch" none, step "Breathe" none]) 0
      (sessionAt Phase.cooldown 1 1 false emptyStorage)) = (Phase.complete, 1, 1, false) := by
  decide

/-- C4 (amended): on the last exercise of a phase with no set left,
`nextExercise` moves from warmup to main when the main list is non-empty and
from main to cooldown when the cooldown list is non-empty, each time with
exercise index 0; it moves to `complete`, keeping the exercise index, from
cooldown, from main with an empty cooldown list, and from warmup when the
main and cooldown lists are both empty. The set number becomes 1 and the
rest flag is cleared in every case. -/
theorem nextExercise_phase_change (workout : Workout) (now : Nat) (a : Session)
    (hset : noSetLeft workout a.player) (hlast : onLastExercise workout a.player) :
    (a.player.currentPhase = Phase.warmup → workout.main ≠ [] →
      position (nextExercise workout now a) = (Phase.main, 0, 1, false)) ∧
    (a.player.currentPhase = Phase.main → workout.cooldown ≠ [] →
      position (nextExercise workout now a) = (Phase.cooldown, 0, 1, false)) ∧
    (a.player.currentPhase = Phase.cooldown ∨
      (a.player.currentPhase = Phase.main ∧ workout.cooldown = []) ∨
      (a.player.currentPhase = Phase.warmup ∧ workout.main = [] ∧ workout.cooldown = []) →
      position (nextExercise workout now a) =
        (Phase.complete, a.player.currentExerciseIndex, 1, false)) := by
  unfold noSetLeft at hset
  unfold onLastExercise at hlast
  refine ⟨?_, ?_, ?_⟩
  · intro hp hne
    have hpos : workout.main.length > 0 := List.length_pos.mpr hne
    rw [hp] at hlast
    simp [nextExercise, hset, hlast, hp, hpos, position]
  · intro hp hne
    have hpos : workout.cooldown.length > 0 := List.length_pos.mpr hne
    rw [hp] at hlast
    simp [nextExercise, hset, hlast, hp, hpos, position]
  · rintro (hp | ⟨hp, hc⟩ | ⟨hp, hm, _⟩) <;> rw [hp] at hlast
    · simp [nextExercise, hset, hlast, hp, position, completeWorkout]
    · simp [nextExercise, hset, hlast, hp, hc, position, completeWorkout]
    · simp [nextExercise, hset, hlast, hp, hm, position, completeWorkout]

/-- Witness of C4 (amended): the only warmup exercise, followed by a main
list. -/
theorem nextExercise_phase_change_witness :
    position (nextExercise (plan [step "Jumping Jacks" none] [step "Push-ups" (some 3)] []) 0
      (initialSession emptyStorage)) = (Phase.main, 0, 1, false) :=
  (nextExercise_phase_change (plan [step "Jumping Jacks" none] [step "Push-ups" (some 3)] []) 0
    (initialSession emptyStorage) (by decide) (by decide)).1 rfl (by decide)

/-- C5 (counterexample): for a plan with an empty warmup list and a non-empty
main list the initial phase is `warmup`, not `main`, and the initial state has
no current exercise. -/
theorem initialState_empty_warmup :
    (plan [] [step "Push-ups" (some 3)] []).warmup = [] ∧
    (plan [] [step "Push-ups" (some 3)] []).main ≠ [] ∧
    initialState.currentPhase = Phase.warmup ∧
    currentExercise (plan [] [step "Push-ups" (some 3)] []) initialState = none := by
  decide

/-- C5 (amended): the initial state is in phase `warmup` at exercise index 0,
set 1, not resting, whatever the plan; its current exercise is the first
warmup exercise when the warmup list is non-empty and is missing when that
list is empty. -/
theorem initialState_phase (workout : Workout) :
    initialState.currentPhase = Phase.warmup ∧
    initialState.currentExerciseIndex = 0 ∧
    initialState.currentSet = 1 ∧
    initialState.isResting = false ∧
    currentExercise workout initialState = workout.warmup.head? ∧
    (workout.warmup = [] → currentExercise workout initialState = none) := by
  have hcur : currentExercise workout initialState = workout.warmup.head? := by
    simp only [currentExercise, initialState, useStateDefaults, getCurrentExercises]
    cases workout.warmup <;> simp
  refine ⟨rfl, rfl, rfl, rfl, hcur, ?_⟩
  intro h
  rw [hcur, h]
  rfl

/-- Witness of C5 (amended): a plan with an empty warmup list. -/
theorem initialState_phase_witness :
    currentExercise (plan [] [step "Push-ups" (some 3)] []) initialState = none :=
  (initialState_phase (plan [] [step "Push-ups" (some 3)] [])).2.2.2.2.2 rfl

theorem phaseEntered_nextExercise (workout : Workout) (now : Nat) (a : Session)
    (h : phaseEntered workout a.player) :
    phaseEntered workout (nextExercise workout now a).player := by
  unfold nextExercise
  simp only
  split_ifs with h1 h2 h3 h4
  · exact h
  · exact h
  · refine ⟨fun _ => List.length_pos.mp h3.2, fun hc => ?_⟩
    simp at hc
  · refine ⟨fun hm => ?_, fun _ => ⟨h.1 h4.1, List.length_pos.mp h4.2⟩⟩
    simp at hm
  · refine ⟨fun hm => ?_, fun hc => ?_⟩
    · simp [completeWorkout] at hm
    · simp [completeWorkout] at hc

theorem phaseEntered_previousExercise (workout : Workout) (a : Session)
    (h : phaseEntered workout a.player) :
    phaseEntered workout (previousExercise workout a).player := by
  unfold previousExercise
  simp only
  split_ifs with h1 h2 h3
  · exact h
  · refine ⟨fun hm => ?_, fun hc => ?_⟩
    · simp at hm
    · simp at hc
  · refine ⟨fun _ => List.length_pos.mp h3.2, fun hc => ?_⟩
    simp at hc
  · exact h

theorem phaseEntered_of_reachable (workout : Workout) (a : Session)
    (h : Reachable workout a) : phaseEntered workout a.player := by
  obtain ⟨es, st, rfl⟩ := h
  have hstep : ∀ (e : Event) (b : Session), phaseEntered workout b.player →
      phaseEntered workout (applyEvent workout e b).player := by
    intro e b hb
    cases e with
    | advance now => exact phaseEntered_nextExercise workout now b hb
    | retreat => exact phaseEntered_previousExercise workout b hb
    | tick =>
      simp only [applyEvent, tick]
      split_ifs
      · exact hb
      · exact hb
  have hrun : ∀ (l : List Event) (b : Session), phaseEntered workout b.player →
      phaseEntered workout (runEvents workout l b).player := by
    intro l
    induction l with
    | nil => intro b hb; exact hb
    | cons e l ih => intro b hb; exact ih _ (hstep e b hb)
  apply hrun
  constructor
  · intro hm
    simp [initialSession, initialState, useStateDefaults] at hm
  · intro hc
    simp [initialSession, initialState, useStateDefaults] at hc

/-- C6: in every state reachable from the initial state whose exercise index
is 0, `previousExercise` moves to the previous non-empty phase, in the order
warmup, main, cooldown, positioned at that phase's last exercise index, and
changes nothing else; where there is no such phase, as in warmup, it leaves
the state unchanged. A reachable state in cooldown always has a non-empty
main list, so the previous non-empty phase of cooldown is main. -/
theorem previousExercise_previous_phase (workout : Workout) (a : Session)
    (hreach : Reachable workout a)
    (hidx : a.player.currentExerciseIndex = 0) :
    previousExercise workout a =
      (match specPreviousPhase workout a.player.currentPhase with
       | some p => specAtLastOf workout a p
       | none => a) ∧
    (a.player.currentPhase = Phase.warmup → previousExercise workout a = a) ∧
    (a.player.currentPhase = Phase.cooldown → workout.main ≠ []) := by
  have hent := phaseEntered_of_reachable workout a hreach
  refine ⟨?_, ?_, fun hc => (hent.2 hc).1⟩
  · cases hp : a.player.currentPhase with
    | warmup => simp [previousExercise, hidx, hp, specPreviousPhase]
    | complete => simp [previousExercise, hidx, hp, specPreviousPhase]
    | main =>
      by_cases hw : workout.warmup = []
      · simp [previousExercise, hidx, hp, specPreviousPhase, hw]
      · have hpos : workout.warmup.length > 0 := List.length_pos.mpr hw
        have hl : workout.warmup.length ≠ 0 := by omega
        simp [previousExercise, hidx, hp, specPreviousPhase, hw, hpos, specAtLastOf,
          getCurrentExercises, lastIndexOr0, hl]
    | cooldown =>
      have hm : workout.main ≠ [] := (hent.2 hp).1
      have hpos : workout.main.length > 0 := List.length_pos.mpr hm
      have hl : workout.main.length ≠ 0 := by omega
      simp [previousExercise, hidx, hp, specPreviousPhase, hm, hpos, specAtLastOf,
        getCurrentExercises, lastIndexOr0, hl]
  · intro hp
    simp [previousExercise, hidx, hp]

/-- Witness of C6: from the first cooldown exercise, reached by four calls of
`nextExercise`, back to the last of two main exercises. -/
theorem previousExercise_previous_phase_witness :
    position (previousExercise
      (plan [step "Jumping Jacks" none] [step "Push-ups" none, step "Squats" none]
        [step "Stretch" none])
      (runEvents
        (plan [step "Jumping Jacks" none] [step "Push-ups" none, step "Squats" none]
          [step "Stretch" none])
        [Event.advance 0, Event.advance 0, Event.advance 0] (initialSession emptyStorage))) =
      (Phase.main, 1, 1, false) := by
  rw [(previousExercise_previous_phase
    (plan [step "Jumping Jacks" none] [step "Push-ups" none, step "Squats" none]
      [step "Stretch" none])
    (runEvents
      (plan [step "Jumping Jacks" none] [step "Push-ups" none, step "Squats" none]
        [step "Stretch" none])
      [Event.advance 0, Event.advance 0, Event.advance 0] (initialSession emptyStorage))
    ⟨[Event.advance 0, Event.advance 0, Event.advance 0], emptyStorage, rfl⟩ (by decide)).1]
  decide

/-! ## Stepping back inside a phase (C7) -/

/-- C7: when the exercise index is positive, `previousExercise` decrements
it, sets the set number to 1 and clears the rest flag; the phase, the clock
and the store are unchanged. -/
theorem previousExercise_decrements (workout : Workout) (a : Session)
    (hidx : a.player.currentExerciseIndex > 0) :
    previousExercise workout a =
      { a with player :=
          { a.player with currentExerciseIndex := a.player.currentExerciseIndex - 1,
                          currentSet := 1, isResting := false } } ∧
    position (previousExercise workout a) =
      (a.player.currentPhase, a.player.currentExerciseIndex - 1, 1, false) := by
  have h : previousExercise workout a =
      { a with player :=
          { a.player with currentExerciseIndex := a.player.currentExerciseIndex - 1,
                          currentSet := 1, isResting := false } } := by
    simp [previousExercise, hidx]
  exact ⟨h, by rw [h]; rfl⟩

/-- Witness of C7: back from the second main exercise during a rest. -/
theorem previousExercise_decrements_witness :
    position (previousExercise twoByThree (sessionAt Phase.main 1 2 true emptyStorage)) =
      (Phase.main, 0, 1, false) :=
  (previousExercise_decrements twoByThree (sessionAt Phase.main 1 2 true emptyStorage)
    (by decide)).2

/-! ## The terminal phase (C8) -/

theorem press_of_complete (workout : Workout) (now : Nat) (c : Control) (a : Session)
    (hphase : a.player.currentPhase = Phase.complete) : press workout now c a = a := by
  have hen : enabled a.player c = false := by simp [enabled, hphase]
  simp [press, hen]

theorem nextExercise_storage (workout : Workout) (now : Nat) (a : Session) :
    (a.player.currentPhase ≠ Phase.complete →
      (nextExercise workout now a).player.currentPhase = Phase.complete →
      (nextExercise workout now a).player.isRunning = false ∧
      (nextExercise workout now a).storage =
        { workoutHistory :=
            saveToHistory a.storage.workoutHistory (workoutRecord workout now a.player.timer)
          workoutDays := markWorkoutDay a.storage.workoutDays (toDateString now) }) ∧
    ((nextExercise workout now a).player.currentPhase ≠ Phase.complete →
      (nextExercise workout now a).storage = a.storage) := by
  unfold nextExercise
  simp only
  split_ifs with h1 h2 h3 h4
  · have hp : a.player.currentPhase = Phase.main := by
      simp only [setsRemain, Bool.and_eq_true, decide_eq_true_eq] at h1
      exact h1.1.1
    simp [hp]
  · exact ⟨fun hne hc => absurd hc hne, fun _ => rfl⟩
  · simp
  · simp
  · simp [completeWorkout]

theorem previousExercise_storage (workout : Workout) (a : Session)
    (hp : a.player.currentPhase ≠ Phase.complete) :
    (previousExercise workout a).player.currentPhase ≠ Phase.complete ∧
    (previousExercise workout a).storage = a.storage := by
  unfold previousExercise
  simp only
  split_ifs with h1 h2 h3
  · exact ⟨hp, rfl⟩
  · simp
  · simp
  · exact ⟨hp, rfl⟩

theorem oneRecordAtMost_applyGesture (workout : Workout) (st : LocalStorage) (g : Gesture)
    (a : Session) (h : oneRecordAtMost workout st a) :
    oneRecordAtMost workout st (applyGesture workout g a) := by
  rcases h with ⟨hp, hst⟩ | ⟨hp, hrun, hrec⟩
  · cases g with
    | tick =>
      left
      simp only [applyGesture, tick]
      split_ifs
      · exact ⟨hp, hst⟩
      · exact ⟨hp, hst⟩
    | press now c =>
      have hen : enabled a.player c = true ∨ enabled a.player c = false := by
        cases enabled a.player c <;> simp
      rcases hen with hen | hen
      · cases c with
        | prev =>
          have hprev := previousExercise_storage workout a hp
          left
          simp only [applyGesture, press, hen, if_true, onClick]
          exact ⟨hprev.1, by rw [hprev.2, hst]⟩
        | done =>
          simp only [applyGesture, press, hen, if_true, onClick]
          by_cases hc : (nextExercise workout now a).player.currentPhase = Phase.complete
          · right
            obtain ⟨hr, hs⟩ := (nextExercise_storage workout now a).1 hp hc
            exact ⟨hc, hr, now, a.player.timer, by rw [hs, hst]⟩
          · left
            exact ⟨hc, by rw [(nextExercise_storage workout now a).2 hc, hst]⟩
        | skip =>
          simp only [applyGesture, press, hen, if_true, onClick]
          by_cases hc : (nextExercise workout now a).player.currentPhase = Phase.complete
          · right
            obtain ⟨hr, hs⟩ := (nextExercise_storage workout now a).1 hp hc
            exact ⟨hc, hr, now, a.player.timer, by rw [hs, hst]⟩
          · left
            exact ⟨hc, by rw [(nextExercise_storage workout now a).2 hc, hst]⟩
      · left
        simp only [applyGesture, press, hen, Bool.false_eq_true, if_false]
        exact ⟨hp, hst⟩
  · have hsame : applyGesture workout g a = a := by
      cases g with
      | tick => simp [applyGesture, tick, hrun]
      | press now c => exact press_of_complete workout now c a hp
    rw [hsame]
    exact Or.inr ⟨hp, hrun, hrec⟩

theorem oneRecordAtMost_runGestures (workout : Workout) (st : LocalStorage)
    (gs : List Gesture) (a : Session) (h : oneRecordAtMost workout st a) :
    oneRecordAtMost workout st (runGestures workout gs a) := by
  induction gs generalizing a with
  | nil => exact h
  | cons g gs ih => exact ih _ (oneRecordAtMost_applyGesture workout st g a h)

theorem runGestures_append (workout : Workout) (gs more : List Gesture) (a : Session) :
    runGestures workout (gs ++ more) a =
      runGestures workout more (runGestures workout gs a) := by
  induction gs generalizing a with
  | nil => rfl
  | cons g gs ih => exact ih _

theorem runGestures_frozen (workout : Workout) (more : List Gesture) (a : Session)
    (hp : a.player.currentPhase = Phase.complete) (hrun : a.player.isRunning = false) :
    runGestures workout more a = a := by
  induction more with
  | nil => rfl
  | cons g more ih =>
    have hsame : applyGesture workout g a = a := by
      cases g with
      | tick => simp [applyGesture, tick, hrun]
      | press now c => exact press_of_complete workout now c a hp
    rw [runGestures, hsame, ih]

/-- C8: `complete` is terminal. In a state with phase `complete` a press on
Prev, Done or Skip, the only way `previousExercise` and `nextExercise` are
called, returns the same session: player state, workout history and streak
data. Once a run of presses and timer callbacks from the initial state has
reached `complete`, no further gesture changes the session; and along every
such run the store is the starting store until `complete` is entered and
holds exactly one saved record afterwards, so no second record is emitted. -/
theorem complete_is_terminal (workout : Workout) :
    (∀ (a : Session), a.player.currentPhase = Phase.complete →
      ∀ (now : Nat) (c : Control), press workout now c a = a) ∧
    (∀ (st : LocalStorage) (gs more : List Gesture),
      (runGestures workout gs (initialSession st)).player.currentPhase = Phase.complete →
      runGestures workout (gs ++ more) (initialSession st) =
        runGestures workout gs (initialSession st)) ∧
    (∀ (st : LocalStorage) (gs : List Gesture),
      ((runGestures workout gs (initialSession st)).player.currentPhase ≠ Phase.complete ∧
        (runGestures workout gs (initialSession st)).storage = st) ∨
      ((runGestures workout gs (initialSession st)).player.currentPhase = Phase.complete ∧
        ∃ now timer : Nat, (runGestures workout gs (initialSession st)).storage =
          { workoutHistory :=
              saveToHistory st.workoutHistory (workoutRecord workout now timer)
            workoutDays := markWorkoutDay st.workoutDays (toDateString now) })) := by
  have hinit : ∀ st : LocalStorage, oneRecordAtMost workout st (initialSession st) := by
    intro st
    left
    exact ⟨by simp [initialSession, initialState, useStateDefaults], rfl⟩
  refine ⟨fun a hp now c => press_of_complete workout now c a hp, ?_, ?_⟩
  · intro st gs more hp
    have hinv := oneRecordAtMost_runGestures workout st gs _ (hinit st)
    rcases hinv with ⟨hne, _⟩ | ⟨_, hrun, _⟩
    · exact absurd hp hne
    · rw [runGestures_append]
      exact runGestures_frozen workout more _ hp hrun
  · intro st gs
    have hinv := oneRecordAtMost_runGestures workout st gs _ (hinit st)
    rcases hinv with ⟨hne, hst⟩ | ⟨hp, _, hrec⟩
    · exact Or.inl ⟨hne, hst⟩
    · exact Or.inr ⟨hp, hrec⟩

/-- Witness of C8: after the seven presses on Done that finish `twoByThree`,
a press on Done and a press on Prev change nothing. -/
theorem complete_is_terminal_witness :
    runGestures twoByThree
      ([Gesture.press 1 Control.done, Gesture.press 2 Control.done,
        Gesture.press 3 Control.done, Gesture.press 4 Control.done,
        Gesture.press 5 Control.done, Gesture.press 6 Control.done,
        Gesture.press 7 Control.done] ++
       [Gesture.press 8 Control.done, Gesture.press 9 Control.prev])
      (initialSession emptyStorage) =
    runGestures twoByThree
      [Gesture.press 1 Control.done, Gesture.press 2 Control.done,
       Gesture.press 3 Control.done, Gesture.press 4 Control.done,
       Gesture.press 5 Control.done, Gesture.press 6 Control.done,
       Gesture.press 7 Control.done] (initialSession emptyStorage) :=
  (complete_is_terminal twoByThree).2.1 emptyStorage _ _ (by decide)

/-! ## The Skip control (C9) -/

/-- C9 (counterexample): on the first set of a three-set exercise a press on
Skip increments the set number and enters a rest on the same exercise; it
does not move to the next exercise. -/
theorem skip_enters_rest :
    position (press twoByThree 0 Control.skip (sessionAt Phase.main 0 1 false emptyStorage)) =
      (Phase.main, 0, 2, true) := by
  decide

/-- C9 (amended): Skip is bound to `nextExercise` as Done is, so both controls
give the same session from every session; in a main-phase state whose current
exercise declares `N` sets with `currentSet < N`, Skip increments
`currentSet` and sets `isResting`, leaving phase and exercise index as they
are. -/
theorem skip_same_as_done (workout : Workout) (now : Nat) (a : Session)
    (e : Exercise) (N : Int)
    (hphase : a.player.currentPhase = Phase.main)
    (hcur : workout.main[a.player.currentExerciseIndex]? = some e)
    (hsets : e.sets = some N)
    (hlt : (a.player.currentSet : Int) < N) :
    (∀ b : Session, press workout now Control.skip b = press workout now Control.done b) ∧
    press workout now Control.skip a =
      { a with player :=
          { a.player with currentSet := a.player.currentSet + 1, isResting := true } } := by
  refine ⟨?_, ?_⟩
  · intro b
    simp [press, enabled, onClick]
  · have hen : enabled a.player Control.skip = true := by simp [enabled, hphase]
    simp only [press, hen, if_true, onClick]
    exact nextExercise_of_setsRemain workout now a
      (setsRemain_of_declared workout a.player e N hphase hcur hsets hlt)

/-- Witness of C9 (amended): Skip on the second set of a three-set
exercise. -/
theorem skip_same_as_done_witness :
    position (press twoByThree 0 Control.skip (sessionAt Phase.main 1 2 false emptyStorage)) =
      (Phase.main, 1, 3, true) := by
  rw [(skip_same_as_done twoByThree 0 (sessionAt Phase.main 1 2 false emptyStorage)
    (step "Squats" (some 3)) 3 rfl rfl rfl (by decide)).2]
  rfl

/-! ## Writing the finalized record (C10) -/

/-- C10: when the last history entry has `startedAt` set, `completeWorkout`
returns a history of the same length whose last entry is the finalized
record and whose earlier entries are those of the old history; when the
history is empty or its last entry has no `startedAt`, it returns the old
history with the finalized record appended. -/
theorem completeWorkout_history (workout : Workout) (now : Nat) (a : Session) :
    (∀ last, a.storage.workoutHistory.getLast? = some last → last.startedAt.isSome = true →
      (completeWorkout workout now a).storage.workoutHistory.length =
        a.storage.workoutHistory.length ∧
      (completeWorkout workout now a).storage.workoutHistory =
        a.storage.workoutHistory.dropLast ++ [workoutRecord workout now a.player.timer] ∧
      ∀ i, i + 1 < a.storage.workoutHistory.length →
        (completeWorkout workout now a).storage.workoutHistory[i]? =
          a.storage.workoutHistory[i]?) ∧
    ((a.storage.workoutHistory = [] ∨
        ∃ last, a.storage.workoutHistory.getLast? = some last ∧ last.startedAt = none) →
      (completeWorkout workout now a).storage.workoutHistory =
        a.storage.workoutHistory ++ [workoutRecord workout now a.player.timer] ∧
      ∀ i, i < a.storage.workoutHistory.length →
        (completeWorkout workout now a).storage.workoutHistory[i]? =
          a.storage.workoutHistory[i]?) := by
  have hcw : (completeWorkout workout now a).storage.workoutHistory =
      saveToHistory a.storage.workoutHistory (workoutRecord workout now a.player.timer) := rfl
  rw [hcw]
  generalize a.storage.workoutHistory = h
  generalize workoutRecord workout now a.player.timer = r
  constructor
  · intro last hlast hstarted
    rcases List.eq_nil_or_concat h with hnil | ⟨init, b, hb⟩
    · subst hnil; simp at hlast
    · rw [List.concat_eq_append] at hb
      subst hb
      have hbl : b = last := by simpa using hlast
      subst hbl
      rw [saveToHistory_concat_started init b r hstarted]
      refine ⟨by simp, by simp, ?_⟩
      intro i hi
      have hi2 : i < init.length := by simpa using hi
      rw [List.getElem?_append_left hi2, List.getElem?_append_left hi2]
  · intro hcase
    have hsave : saveToHistory h r = h ++ [r] := by
      rcases hcase with hnil | ⟨last, hlast, hnone⟩
      · subst hnil; exact saveToHistory_nil r
      · rcases List.eq_nil_or_concat h with hnil | ⟨init, b, hb⟩
        · subst hnil; simp at hlast
        · rw [List.concat_eq_append] at hb
          subst hb
          have hbl : b = last := by simpa using hlast
          subst hbl
          exact saveToHistory_concat_not_started init b r hnone
    rw [hsave]
    refine ⟨rfl, ?_⟩
    intro i hi
    rw [List.getElem?_append_left hi]

/-- Witness of C10: finalizing over a history whose last entry was written by
`handleStartWorkout` replaces that entry. -/
theorem completeWorkout_history_witness :
    (completeWorkout twoByThree 9 (initialSession
      (handleStartWorkout twoByThree 5 emptyStorage))).storage.workoutHistory =
      [workoutRecord twoByThree 9 0] :=
  ((completeWorkout_history twoByThree 9
    (initialSession (handleStartWorkout twoByThree 5 emptyStorage))).1
      { workout := twoByThree, startedAt := some 5, completedAt := none, duration := none }
      rfl rfl).2.1

/-! ## The finalized record (C11) -/

/-- C11 (counterexample): for a session started at instant 5 and finalized at
instant 9, the record left in the history has `completedAt` 9 and no
`startedAt`: the instant stored at session start is gone. -/
theorem finalized_record_drops_startedAt :
    (handleStartWorkout twoByThree 5 emptyStorage).workoutHistory.map
      (fun r => r.startedAt) = [some 5] ∧
    (completeWorkout twoByThree 9 (initialSession
      (handleStartWorkout twoByThree 5 emptyStorage))).storage.workoutHistory.map
      (fun r => (r.startedAt, r.completedAt, r.duration)) = [(none, some 9, some 0)] := by
  decide

/-- C11 (amended): for a session started through `handleStartWorkout`, the
finalization replaces the record written at session start by a record that
carries the workout, `completedAt = now` and `duration` equal to the timer
value, and has no `startedAt`; the earlier history is unchanged. -/
theorem completeWorkout_after_start (workout : Workout) (started now : Nat)
    (p : PlayerState) (st : LocalStorage) :
    (completeWorkout workout now
      { player := p, storage := handleStartWorkout workout started st }).storage.workoutHistory =
      st.workoutHistory ++
        [{ workout := workout, startedAt := none, completedAt := some now,
           duration := some p.timer }] := by
  have h := saveToHistory_concat_started st.workoutHistory
    { workout := workout, startedAt := some started, completedAt := none, duration := none }
    (workoutRecord workout now p.timer) rfl
  simpa [completeWorkout, handleStartWorkout, workoutRecord] using h

/-! ## The progress value (C12, C13, C14) -/

/-- C12 (counterexample): in the `complete` state reached by the run over
`twoByThree` (exercise index 1, two exercises in total) the progress value is
50, while the claimed formula, with all three phases fully passed, gives 150;
and on the main exercise of a plan with one exercise in each phase (1 of 3)
the value is the double 2345624805922133 / 2^46, which is neither 100 / 3 nor
the double of `100 * 1 / 3`. -/
theorem progress_complete_not_formula :
    (advanceN twoByThree 0 7 (initialSession emptyStorage)).player.currentPhase =
      Phase.complete ∧
    progress twoByThree (advanceN twoByThree 0 7 (initialSession emptyStorage)).player = 50 ∧
    100 * ((specPassedLength twoByThree Phase.complete + 1 : ℕ) : ℚ) /
      (totalExercises twoByThree : ℚ) = 150 ∧
    (advanceN (plan [step "Jumping Jacks" none] [step "Push-ups" none] [step "Stretch" none])
      0 1 (initialSession emptyStorage)).player.currentPhase = Phase.main ∧
    progress (plan [step "Jumping Jacks" none] [step "Push-ups" none] [step "Stretch" none])
      (advanceN (plan [step "Jumping Jacks" none] [step "Push-ups" none] [step "Stretch" none])
        0 1 (initialSession emptyStorage)).player = 2345624805922133 / 70368744177664 ∧
    (2345624805922133 / 70368744177664 : ℚ) ≠ 100 * 1 / 3 ∧
    (2345624805922133 / 70368744177664 : ℚ) ≠ roundDouble (100 * 1 / 3) := by
  refine ⟨by decide, ?_, ?_, by decide, ?_, by norm_num, ?_⟩
  · rw [progress_eq twoByThree _ 1 2 (by decide) (by decide) (by decide)]
    exact_mod_cast roundDouble_percent_half
  · norm_num [specPassedLength, totalExercises, twoByThree, plan]
  · rw [progress_eq _ _ 1 3 (by decide) (by decide) (by decide)]
    exact_mod_cast roundDouble_percent_third
  · rw [roundDouble_hundred_thirds]
    norm_num

/-- C12 (amended): in every state whose phase is warmup, main or cooldown the
progress value is the double of (the summed lengths of the phases fully
passed plus the exercise index) over the total exercise count, times 100
(the quotient rounded, then the product), when that total is positive, and
then differs from the exact value of the formula by at most that value over
`2^51`; in phase `complete` it is the same expression on the exercise index
alone; and it is 0 in every state when the total is 0. -/
theorem progress_formula (workout : Workout) (s : PlayerState) :
    (s.currentPhase ≠ Phase.complete → 0 < totalExercises workout →
      progress workout s =
        roundDouble (roundDouble
          (((specPassedLength workout s.currentPhase + s.currentExerciseIndex : ℕ) : ℚ) /
            (totalExercises workout : ℚ)) * 100) ∧
      |progress workout s -
          100 * ((specPassedLength workout s.currentPhase + s.currentExerciseIndex : ℕ) : ℚ) /
            (totalExercises workout : ℚ)| ≤
        100 * ((specPassedLength workout s.currentPhase + s.currentExerciseIndex : ℕ) : ℚ) /
            (totalExercises workout : ℚ) / 2 ^ 51) ∧
    (s.currentPhase = Phase.complete → 0 < totalExercises workout →
      progress workout s =
        roundDouble (roundDouble
          ((s.currentExerciseIndex : ℚ) / (totalExercises workout : ℚ)) * 100)) ∧
    (totalExercises workout = 0 → progress workout s = 0) := by
  refine ⟨?_, ?_, ?_⟩
  · intro hp ht
    have hcount : getCompletedCount workout s =
        specPassedLength workout s.currentPhase + s.currentExerciseIndex := by
      cases hph : s.currentPhase <;> simp_all [getCompletedCount, specPassedLength]
    have hval := progress_eq workout s _ _ hcount rfl ht
    refine ⟨hval, ?_⟩
    rw [hval]
    have hq : (0 : ℚ) ≤
        ((specPassedLength workout s.currentPhase + s.currentExerciseIndex : ℕ) : ℚ) /
          (totalExercises workout : ℚ) := by positivity
    have h := roundDouble_percent_error hq
    rw [mul_div_assoc]
    exact h
  · intro hp ht
    have hcount : getCompletedCount workout s = s.currentExerciseIndex := by
      simp [getCompletedCount, hp]
    exact progress_eq workout s _ _ hcount rfl ht
  · intro ht
    simp [progress, ht]

/-- Witness of C12 (amended): the second main exercise of `twoByThree`. -/
theorem progress_formula_witness :
    progress twoByThree (sessionAt Phase.main 1 1 false emptyStorage).player =
        roundDouble (roundDouble
          (((specPassedLength twoByThree Phase.main + 1 : ℕ) : ℚ) /
            (totalExercises twoByThree : ℚ)) * 100) ∧
      |progress twoByThree (sessionAt Phase.main 1 1 false emptyStorage).player -
          100 * ((specPassedLength twoByThree Phase.main + 1 : ℕ) : ℚ) /
            (totalExercises twoByThree : ℚ)| ≤
        100 * ((specPassedLength twoByThree Phase.main + 1 : ℕ) : ℚ) /
            (totalExercises twoByThree : ℚ) / 2 ^ 51 :=
  (progress_formula twoByThree (sessionAt Phase.main 1 1 false emptyStorage).player).1
    (by decide) (by decide)

/-! ## The exercise index along a run -/

theorem totalExercises_pos_of_current (workout : Workout) (p : Phase) (i : Nat)
    (h : i < (getCurrentExercises workout p).length) : i < totalExercises workout := by
  cases p <;> simp [getCurrentExercises, totalExercises] at h ⊢ <;> omega

theorem indexOk_initialSession (workout : Workout) (st : LocalStorage) :
    indexOk workout (initialSession st).player := by
  simp only [indexOk, initialSession, initialState, useStateDefaults, getCurrentExercises]
  rcases Nat.eq_zero_or_pos workout.warmup.length with h | h
  · exact Or.inr ⟨h, trivial⟩
  · exact Or.inl h

theorem indexOk_nextExercise (workout : Workout) (now : Nat) (a : Session)
    (h : indexOk workout a.player) : indexOk workout (nextExercise workout now a).player := by
  unfold nextExercise
  simp only
  split_ifs with h1 h2 h3 h4
  · exact h
  · cases hp : a.player.currentPhase <;> simp [indexOk, hp, getCurrentExercises] at h2 ⊢ <;>
      omega
  · simp [indexOk, getCurrentExercises]
    omega
  · simp [indexOk, getCurrentExercises]
    omega
  · cases hp : a.player.currentPhase <;>
      simp [indexOk, hp, completeWorkout, getCurrentExercises, totalExercises] at h h2 ⊢ <;>
      omega

theorem indexOk_previousExercise (workout : Workout) (a : Session)
    (h : indexOk workout a.player) : indexOk workout (previousExercise workout a).player := by
  unfold previousExercise
  simp only
  split_ifs with h1 h2 h3
  · cases hp : a.player.currentPhase <;> simp [indexOk, hp] at h ⊢ <;> omega
  · have hl : workout.warmup.length ≠ 0 := by omega
    simp only [indexOk, getCurrentExercises, lastIndexOr0, hl, if_false]
    omega
  · have hl : workout.main.length ≠ 0 := by omega
    simp only [indexOk, getCurrentExercises, lastIndexOr0, hl, if_false]
    omega
  · exact h

theorem indexOk_tick (workout : Workout) (s : PlayerState) (h : indexOk workout s) :
    indexOk workout (tick s) := by
  unfold tick
  split_ifs
  · exact h
  · exact h

theorem indexOk_applyEvent (workout : Workout) (e : Event) (a : Session)
    (h : indexOk workout a.player) : indexOk workout (applyEvent workout e a).player := by
  cases e with
  | advance now => exact indexOk_nextExercise workout now a h
  | retreat => exact indexOk_previousExercise workout a h
  | tick => exact indexOk_tick workout a.player h

theorem indexOk_runEvents (workout : Workout) (es : List Event) (a : Session)
    (h : indexOk workout a.player) : indexOk workout (runEvents workout es a).player := by
  induction es generalizing a with
  | nil => exact h
  | cons e es ih => exact ih (applyEvent workout e a) (indexOk_applyEvent workout e a h)

theorem indexOk_of_reachable (workout : Workout) (a : Session) (h : Reachable workout a) :
    indexOk workout a.player := by
  obtain ⟨es, st, rfl⟩ := h
  exact indexOk_runEvents workout es _ (indexOk_initialSession workout st)

theorem getCompletedCount_nextExercise (workout : Workout) (now : Nat) (a : Session)
    (hok : indexOk workout a.player)
    (hc : (nextExercise workout now a).player.currentPhase ≠ Phase.complete ∨
      a.player.currentPhase = Phase.complete) :
    getCompletedCount workout a.player ≤
      getCompletedCount workout (nextExercise workout now a).player := by
  unfold nextExercise at hc ⊢
  simp only at hc ⊢
  split_ifs at hc ⊢ with h1 h2 h3 h4
  · exact le_refl _
  · simp [getCompletedCount]
  · simp [getCompletedCount, indexOk, h3.1, getCurrentExercises] at hok ⊢
    omega
  · simp [getCompletedCount, indexOk, h4.1, getCurrentExercises] at hok ⊢
    omega
  · simp [completeWorkout] at hc
    simp [getCompletedCount, completeWorkout, hc]

theorem progress_mono_of_count (workout : Workout) (s t : PlayerState)
    (h : getCompletedCount workout s ≤ getCompletedCount workout t) :
    progress workout s ≤ progress workout t := by
  unfold progress
  split_ifs with ht
  · have hq : (getCompletedCount workout s : ℚ) ≤ (getCompletedCount workout t : ℚ) := by
      exact_mod_cast h
    have hpos : (0 : ℚ) < (totalExercises workout : ℚ) := by exact_mod_cast ht
    have hdiv := div_le_div_of_nonneg_right hq (le_of_lt hpos)
    have h0 : (0 : ℚ) ≤ (getCompletedCount workout s : ℚ) / (totalExercises workout : ℚ) := by
      positivity
    have hr := roundDouble_mono h0 hdiv
    exact roundDouble_mono (mul_nonneg (roundDouble_nonneg h0) (by norm_num))
      (mul_le_mul_of_nonneg_right hr (by norm_num))
  · exact le_refl _

/-- C13 (counterexample): on a plan of one warmup and one main exercise the
progress value is 50 on the main exercise, a state reached by one call of
`nextExercise`, and 0 after the next call, which enters `complete`. -/
theorem progress_drops_entering_complete :
    (nextExercise (plan [step "Jumping Jacks" none] [step "Push-ups" none] []) 0
      (advanceN (plan [step "Jumping Jacks" none] [step "Push-ups" none] []) 0 1
        (initialSession emptyStorage))).player.currentPhase = Phase.complete ∧
    progress (plan [step "Jumping Jacks" none] [step "Push-ups" none] [])
      (advanceN (plan [step "Jumping Jacks" none] [step "Push-ups" none] []) 0 1
        (initialSession emptyStorage)).player = 50 ∧
    progress (plan [step "Jumping Jacks" none] [step "Push-ups" none] [])
      (nextExercise (plan [step "Jumping Jacks" none] [step "Push-ups" none] []) 0
        (advanceN (plan [step "Jumping Jacks" none] [step "Push-ups" none] []) 0 1
          (initialSession emptyStorage))).player = 0 := by
  have h1 : (advanceN (plan [step "Jumping Jacks" none] [step "Push-ups" none] []) 0 1
      (initialSession emptyStorage)).player =
      { currentPhase := Phase.main, currentExerciseIndex := 0, currentSet := 1,
        isResting := false, timer := 0, isRunning := true } := by decide
  have h2 : (nextExercise (plan [step "Jumping Jacks" none] [step "Push-ups" none] []) 0
      (advanceN (plan [step "Jumping Jacks" none] [step "Push-ups" none] []) 0 1
        (initialSession emptyStorage))).player =
      { currentPhase := Phase.complete, currentExerciseIndex := 0, currentSet := 1,
        isResting := false, timer := 0, isRunning := false } := by decide
  rw [h1, h2]
  refine ⟨rfl, ?_, ?_⟩
  · rw [progress_eq _ _ 1 2 (by decide) (by decide) (by decide)]
    exact_mod_cast roundDouble_percent_half
  · rw [progress_eq _ _ 0 2 (by decide) (by decide) (by decide)]
    exact_mod_cast roundDouble_percent_zero 2

/-- C13 (amended): for every plan and every state reachable from the initial
state, the progress value after `nextExercise` is at least the value before
it, provided the call does not enter `complete` from another phase. -/
theorem progress_monotone (workout : Workout) (now : Nat) (a : Session)
    (hreach : Reachable workout a)
    (hc : (nextExercise workout now a).player.currentPhase ≠ Phase.complete ∨
      a.player.currentPhase = Phase.complete) :
    progress workout a.player ≤ progress workout (nextExercise workout now a).player :=
  progress_mono_of_count workout _ _
    (getCompletedCount_nextExercise workout now a (indexOk_of_reachable workout a hreach) hc)

/-- Witness of C13 (amended): the call that moves from the warmup exercise to
the main exercise. -/
theorem progress_monotone_witness :
    progress (plan [step "Jumping Jacks" none] [step "Push-ups" none] [])
        (initialSession emptyStorage).player ≤
      progress (plan [step "Jumping Jacks" none] [step "Push-ups" none] [])
        (nextExercise (plan [step "Jumping Jacks" none] [step "Push-ups" none] []) 0
          (initialSession emptyStorage)).player :=
  progress_monotone (plan [step "Jumping Jacks" none] [step "Push-ups" none] []) 0
    (initialSession emptyStorage) ⟨[], emptyStorage, rfl⟩ (Or.inl (by decide))

/-- C14 (counterexample): on a plan of three exercises, one in each phase,
three calls of `nextExercise` reach `complete` with a progress value of 0,
not 100. -/
theorem progress_zero_at_complete :
    0 < totalExercises
      (plan [step "Jumping Jacks" none] [step "Push-ups" none] [step "Stretch" none]) ∧
    (advanceN (plan [step "Jumping Jacks" none] [step "Push-ups" none] [step "Stretch" none])
      0 3 (initialSession emptyStorage)).player.currentPhase = Phase.complete ∧
    progress (plan [step "Jumping Jacks" none] [step "Push-ups" none] [step "Stretch" none])
      (advanceN (plan [step "Jumping Jacks" none] [step "Push-ups" none] [step "Stretch" none])
        0 3 (initialSession emptyStorage)).player = 0 := by
  have h : (advanceN (plan [step "Jumping Jacks" none] [step "Push-ups" none]
      [step "Stretch" none]) 0 3 (initialSession emptyStorage)).player =
      { currentPhase := Phase.complete, currentExerciseIndex := 0, currentSet := 1,
        isResting := false, timer := 0, isRunning := false } := by decide
  rw [h]
  refine ⟨by decide, rfl, ?_⟩
  rw [progress_eq _ _ 0 3 (by decide) (by decide) (by decide)]
  exact_mod_cast roundDouble_percent_zero 3

/-- C14 (amended): for every plan with a positive total exercise count, the
progress value in a state with phase `complete` is the double of the
exercise index over the total, times 100; it is 0 when the exercise index is
0; the completion screen shows no progress bar; and in every such state
reachable from the initial state the exercise index is below the total and,
the total being at most `2^53` (array lengths are below `2^32`), the value is
below 100. -/
theorem progress_at_complete (workout : Workout) (a : Session)
    (ht : 0 < totalExercises workout)
    (hp : a.player.currentPhase = Phase.complete) :
    progress workout a.player =
      roundDouble (roundDouble
        ((a.player.currentExerciseIndex : ℚ) / (totalExercises workout : ℚ)) * 100) ∧
    (a.player.currentExerciseIndex = 0 → progress workout a.player = 0) ∧
    progressBar workout a.player = none ∧
    (Reachable workout a →
      a.player.currentExerciseIndex < totalExercises workout ∧
      (totalExercises workout ≤ 2 ^ 53 → progress workout a.player < 100)) := by
  have hcount : getCompletedCount workout a.player = a.player.currentExerciseIndex := by
    simp [getCompletedCount, hp]
  have hval := progress_eq workout a.player _ _ hcount rfl ht
  refine ⟨hval, ?_, by simp [progressBar, hp], ?_⟩
  · intro h0
    rw [hval, h0]
    exact_mod_cast roundDouble_percent_zero _
  · intro hreach
    have hok := indexOk_of_reachable workout a hreach
    have hlt : a.player.currentExerciseIndex < totalExercises workout := by
      simp only [indexOk, hp] at hok
      omega
    refine ⟨hlt, ?_⟩
    intro hbound
    rw [hval]
    exact roundDouble_percent_lt _ _ hlt hbound

/-- Witness of C14 (amended): the `complete` state reached by the run over
`twoByThree`. -/
theorem progress_at_complete_witness :
    0 < totalExercises twoByThree ∧
    (advanceN twoByThree 0 7 (initialSession emptyStorage)).player.currentPhase =
      Phase.complete ∧
    progress twoByThree (advanceN twoByThree 0 7 (initialSession emptyStorage)).player < 100 :=
  ⟨by decide, by decide,
    ((progress_at_complete twoByThree (advanceN twoByThree 0 7 (initialSession emptyStorage))
      (by decide) (by decide)).2.2.2
      ⟨[Event.advance 0, Event.advance 0, Event.advance 0, Event.advance 0, Event.advance 0,
        Event.advance 0, Event.advance 0], emptyStorage, rfl⟩).2
      (by norm_num [totalExercises, twoByThree, plan])⟩

/-! ## Invariants of the reachable states (C15, C16, C17) -/

/-- C15: in every state reachable from the initial state by `nextExercise`
and `previousExercise` (and timer callbacks) whose phase is warmup, main or
cooldown, the exercise index is a valid index into the current list, or is 0
when that list is empty. -/
theorem reachable_index_valid (workout : Workout) (a : Session)
    (hreach : Reachable workout a)
    (hp : a.player.currentPhase ≠ Phase.complete) :
    a.player.currentExerciseIndex <
        (getCurrentExercises workout a.player.currentPhase).length ∨
      (getCurrentExercises workout a.player.currentPhase = [] ∧
        a.player.currentExerciseIndex = 0) := by
  have hok := indexOk_of_reachable workout a hreach
  cases hph : a.player.currentPhase <;>
    simp_all [indexOk, getCurrentExercises]

/-- Witness of C15: the state after stepping forward four times and back
once on `twoByThree`. -/
theorem reachable_index_valid_witness :
    (runEvents twoByThree
      [Event.advance 0, Event.advance 0, Event.advance 0, Event.advance 0, Event.retreat]
      (initialSession emptyStorage)).player.currentExerciseIndex < 2 := by
  have h := reachable_index_valid twoByThree
    (runEvents twoByThree
      [Event.advance 0, Event.advance 0, Event.advance 0, Event.advance 0, Event.retreat]
      (initialSession emptyStorage))
    ⟨[Event.advance 0, Event.advance 0, Event.advance 0, Event.advance 0, Event.retreat],
      emptyStorage, rfl⟩ (by decide)
  rcases h with h | h
  · exact h
  · exact absurd h.1 (by decide)

/-- C16 (evaluation at the failing input): on a plan whose only warmup
exercise declares 1 set and whose only main exercise declares 3 sets, two
calls of `nextExercise` and one of `previousExercise` lead to the warmup
exercise with set number 2, above its declared count of 1. -/
theorem previousExercise_keeps_set_number :
    position (runEvents (plan [step "Jumping Jacks" (some 1)] [step "Push-ups" (some 3)] [])
      [Event.advance 0, Event.advance 0, Event.retreat] (initialSession emptyStorage)) =
      (Phase.warmup, 0, 2, true) ∧
    setsField (currentExercise
      (plan [step "Jumping Jacks" (some 1)] [step "Push-ups" (some 3)] [])
      (runEvents (plan [step "Jumping Jacks" (some 1)] [step "Push-ups" (some 3)] [])
        [Event.advance 0, Event.advance 0, Event.retreat]
        (initialSession emptyStorage)).player) = some 1 := by
  decide

/-- C17 (evaluation at the failing input): stepping back from the rest
before set 2 of the first main exercise lands on the last warmup exercise
with the rest flag still set. -/
theorem previousExercise_keeps_rest_flag :
    position (runEvents
      (plan [step "Jumping Jacks" none] [step "Push-ups" (some 3), step "Squats" (some 3)]
        [step "Stretch" none])
      [Event.advance 0, Event.advance 0] (initialSession emptyStorage)) =
      (Phase.main, 0, 2, true) ∧
    position (runEvents
      (plan [step "Jumping Jacks" none] [step "Push-ups" (some 3), step "Squats" (some 3)]
        [step "Stretch" none])
      [Event.advance 0, Event.advance 0, Event.retreat] (initialSession emptyStorage)) =
      (Phase.warmup, 0, 2, true) := by
  decide

/-! ## The rest time (C18) -/

theorem dropWhile_nondigits_append (pre l : List Char)
    (hpre : ∀ c ∈ pre, c.isDigit = false) :
    (pre ++ l).dropWhile (fun c => !c.isDigit) = l.dropWhile (fun c => !c.isDigit) := by
  induction pre with
  | nil => rfl
  | cons c pre ih =>
    have hc : c.isDigit = false := hpre c (List.mem_cons_self c pre)
    have hrest : ∀ d ∈ pre, d.isDigit = false := fun d hd => hpre d (List.mem_cons_of_mem c hd)
    simp [List.dropWhile, hc, ih hrest]

theorem takeWhile_digits_append (run post : List Char)
    (hrun : ∀ c ∈ run, c.isDigit = true)
    (hpost : ∀ c, post.head? = some c → c.isDigit = false) :
    (run ++ post).takeWhile Char.isDigit = run := by
  induction run with
  | nil =>
    cases post with
    | nil => rfl
    | cons c post => simp [List.takeWhile, hpost c rfl]
  | cons d run ih =>
    have hd : d.isDigit = true := hrun d (List.mem_cons_self d run)
    have hrest : ∀ c ∈ run, c.isDigit = true := fun c hc => hrun c (List.mem_cons_of_mem d hc)
    simp [List.takeWhile, hd, ih hrest]

theorem matchDigits_of_run (pre run post : List Char)
    (hpre : ∀ c ∈ pre, c.isDigit = false)
    (hne : run ≠ [])
    (hrun : ∀ c ∈ run, c.isDigit = true)
    (hpost : ∀ c, post.head? = some c → c.isDigit = false) :
    matchDigits (pre ++ run ++ post) = some run := by
  cases run with
  | nil => exact absurd rfl hne
  | cons d run =>
    have hd : d.isDigit = true := hrun d (List.mem_cons_self d run)
    have hdrop : (pre ++ (d :: run) ++ post).dropWhile (fun c => !c.isDigit) =
        d :: (run ++ post) := by
      rw [List.append_assoc, dropWhile_nondigits_append pre _ hpre]
      simp [List.dropWhile, hd]
    have htake := takeWhile_digits_append (d :: run) post hrun hpost
    simp only [matchDigits, hdrop]
    simpa using htake

theorem matchDigits_of_no_digit (cs : List Char) (h : ∀ c ∈ cs, c.isDigit = false) :
    matchDigits cs = none := by
  have hdrop : cs.dropWhile (fun c => !c.isDigit) = [] := by
    have := dropWhile_nondigits_append cs [] h
    simpa using this
  simp [matchDigits, hdrop]

theorem foldl_digits (ds : List Char) (n : Nat) :
    ds.foldl (fun n c => 10 * n + (c.toNat - 48)) n =
      n * 10 ^ ds.length + Nat.ofDigits 10 (ds.reverse.map (fun c => c.toNat - 48)) := by
  induction ds generalizing n with
  | nil => simp
  | cons d ds ih =>
    simp only [List.foldl_cons, ih, List.reverse_cons, List.map_append, List.map_cons,
      List.map_nil, Nat.ofDigits_append, Nat.ofDigits_singleton, List.length_map,
      List.length_reverse, List.length_cons]
    ring

theorem parseDigits_eq_ofDigits (ds : List Char) :
    parseDigits ds = Nat.ofDigits 10 (ds.reverse.map (fun c => c.toNat - 48)) := by
  simp [parseDigits, foldl_digits]

theorem toNumberValue_natCast (n : ℕ) (hn : n < 2 ^ 53) :
    toNumberValue (n : ℚ) = NumberValue.finite (n : ℚ) := by
  have hlt : (n : ℚ) < 2 ^ 1024 := by
    have h1 : (n : ℚ) < 2 ^ 53 := by exact_mod_cast hn
    have h2 : (2 : ℚ) ^ 53 ≤ 2 ^ 1024 := by norm_num
    linarith
  simp only [toNumberValue, roundDouble_natCast n hn, hlt, if_true]

theorem toNumberValue_large (v : ℚ) (h : (2 : ℚ) ^ 1024 ≤ v) :
    toNumberValue v = NumberValue.infinity := by
  have hd := roundDouble_dyadic 1 1024 (by norm_num)
  rw [zpow_ofNat, Nat.cast_one, one_mul] at hd
  have hm := roundDouble_mono (by positivity) h
  rw [hd] at hm
  simp only [toNumberValue, not_lt.mpr hm, if_false]

theorem digit_value_lt (c : Char) (h : c.isDigit = true) : c.toNat - 48 < 10 := by
  simp only [Char.isDigit, Bool.and_eq_true, decide_eq_true_eq] at h
  have h2 : c.val.toNat ≤ 57 := by
    have := h.2
    exact UInt32.le_def.mp this
  show c.val.toNat - 48 < 10
  omega

theorem ofDigits_run_lt (run : List Char) (hrun : ∀ c ∈ run, c.isDigit = true) :
    Nat.ofDigits 10 (run.reverse.map (fun c => c.toNat - 48)) < 10 ^ run.length := by
  have h := Nat.ofDigits_lt_base_pow_length (b := 10)
    (l := run.reverse.map (fun c => c.toNat - 48)) (by norm_num) (by
      intro x hx
      obtain ⟨c, hc, rfl⟩ := List.mem_map.mp hx
      exact digit_value_lt c (hrun c (List.mem_reverse.mp hc)))
  simpa using h

/-- C18 (counterexample): on the rest string "9007199254740993", whose run of
digits is the whole string and writes the integer `2^53 + 1`, `getRestTime`
returns the double 9007199254740992, not the integer value of the run. -/
theorem restTimeOf_rounds_long_run :
    matchDigits "9007199254740993".data = some "9007199254740993".data ∧
    parseDigits "9007199254740993".data = 9007199254740993 ∧
    restTimeOf (some "9007199254740993") = NumberValue.finite 9007199254740992 := by
  have hm : matchDigits "9007199254740993".data = some "9007199254740993".data := by decide
  have hp : parseDigits "9007199254740993".data = 9007199254740993 := by decide
  refine ⟨hm, hp, ?_⟩
  have hne : ¬ ("9007199254740993".data = []) := by decide
  simp only [restTimeOf, hne, if_false, hm, parseInt, hp]
  have hr : roundDouble ((9007199254740993 : ℕ) : ℚ) = 9007199254740992 := by
    have h := roundDouble_tie (x := ((9007199254740993 : ℕ) : ℚ)) 53 4503599627370496
      (by norm_num) (by norm_num) (by norm_num) (by norm_num)
    rw [h]
    norm_num
  simp only [toNumberValue, hr]
  norm_num

/-- C18 (amended): `getRestTime` is a total function of the optional rest
string. It returns 60 when the field is missing, is empty or holds no decimal
digit; otherwise, the string being `pre ++ run ++ post` with no digit in
`pre`, a non-empty `run` of digits, and `post` empty or starting with a
character that is no digit, it returns the Number value of the integer that
`run` writes: that integer itself when it is below `2^53`, as it is for every
run of at most 15 digits, and `Infinity` when it is at least `2^1024`. So
"Rest 90 seconds" gives 90 and "easy" gives 60. -/
theorem restTimeOf_spec :
    restTimeOf none = NumberValue.finite 60 ∧
    restTimeOf (some "") = NumberValue.finite 60 ∧
    (∀ r : String, (∀ c ∈ r.data, c.isDigit = false) →
      restTimeOf (some r) = NumberValue.finite 60) ∧
    (∀ (r : String) (pre run post : List Char), r.data = pre ++ run ++ post →
      (∀ c ∈ pre, c.isDigit = false) → run ≠ [] → (∀ c ∈ run, c.isDigit = true) →
      (∀ c, post.head? = some c → c.isDigit = false) →
      restTimeOf (some r) =
        toNumberValue ((Nat.ofDigits 10 (run.reverse.map (fun c => c.toNat - 48)) : ℕ) : ℚ) ∧
      (Nat.ofDigits 10 (run.reverse.map (fun c => c.toNat - 48)) < 2 ^ 53 →
        restTimeOf (some r) =
          NumberValue.finite
            ((Nat.ofDigits 10 (run.reverse.map (fun c => c.toNat - 48)) : ℕ) : ℚ)) ∧
      (run.length ≤ 15 →
        Nat.ofDigits 10 (run.reverse.map (fun c => c.toNat - 48)) < 2 ^ 53) ∧
      ((2 : ℚ) ^ 1024 ≤
          ((Nat.ofDigits 10 (run.reverse.map (fun c => c.toNat - 48)) : ℕ) : ℚ) →
        restTimeOf (some r) = NumberValue.infinity)) ∧
    restTimeOf (some "Rest 90 seconds") = NumberValue.finite 90 ∧
    restTimeOf (some "easy") = NumberValue.finite 60 ∧
    (∀ (workout : Workout) (s : PlayerState),
      getRestTime workout s = restTimeOf (restField (currentExercise workout s))) := by
  have hrun : ∀ (r : String) (pre run post : List Char), r.data = pre ++ run ++ post →
      (∀ c ∈ pre, c.isDigit = false) → run ≠ [] → (∀ c ∈ run, c.isDigit = true) →
      (∀ c, post.head? = some c → c.isDigit = false) →
      restTimeOf (some r) =
        toNumberValue
          ((Nat.ofDigits 10 (run.reverse.map (fun c => c.toNat - 48)) : ℕ) : ℚ) := by
    intro r pre run post hr hpre hne hrun hpost
    have hdata : pre ++ run ++ post ≠ [] := by
      cases run with
      | nil => exact absurd rfl hne
      | cons d run => simp
    simp only [restTimeOf, hr, hdata, if_false,
      matchDigits_of_run pre run post hpre hne hrun hpost, parseInt,
      parseDigits_eq_ofDigits run]
  have h90 : restTimeOf (some "Rest 90 seconds") = NumberValue.finite 90 := by
    have h := hrun "Rest 90 seconds" "Rest ".data "90".data " seconds".data rfl
      (by decide) (by decide) (by decide) (by decide)
    have hv : Nat.ofDigits 10 ("90".data.reverse.map (fun c => c.toNat - 48)) = 90 := by
      decide
    rw [h, hv, toNumberValue_natCast 90 (by norm_num)]
    norm_num
  refine ⟨rfl, rfl, ?_, ?_, h90, ?_, fun _ _ => rfl⟩
  · intro r h
    simp only [restTimeOf, matchDigits_of_no_digit r.data h]
    split_ifs <;> rfl
  · intro r pre run post hr hpre hne hdig hpost
    have hval := hrun r pre run post hr hpre hne hdig hpost
    refine ⟨hval, ?_, ?_, ?_⟩
    · intro hlt
      rw [hval, toNumberValue_natCast _ hlt]
    · intro hlen
      have h1 := ofDigits_run_lt run hdig
      have h2 : 10 ^ run.length ≤ 10 ^ 15 := Nat.pow_le_pow_right (by norm_num) hlen
      have h3 : (10 : ℕ) ^ 15 < 2 ^ 53 := by norm_num
      omega
    · intro hbig
      rw [hval]
      exact toNumberValue_large _ hbig
  · have hno : matchDigits "easy".data = none := by decide
    have hne : ¬ ("easy".data = []) := by decide
    simp only [restTimeOf, hne, if_false, hno]

/-- Witness of C18 (amended): the rest string "take 45s, then go" with its
first run of digits "45". -/
theorem restTimeOf_spec_witness :
    restTimeOf (some "take 45s, then go") = NumberValue.finite 45 := by
  have h := (restTimeOf_spec.2.2.2.1 "take 45s, then go" "take ".data "45".data
    "s, then go".data rfl (by decide) (by decide) (by decide) (by decide)).2.1
  have hv : Nat.ofDigits 10 ("45".data.reverse.map (fun c => c.toNat - 48)) = 45 := by
    decide
  rw [hv] at h
  rw [h (by norm_num)]
  norm_num

/-! ## Marking the workout day (C19) -/

/-- C19: `markWorkoutDay` leaves the list unchanged when today is already in
it and otherwise appends exactly that date; marking twice is the same as
marking once; a list without duplicates stays so; a day that occurred at
most once before occurs exactly once after two markings; and two
finalizations on the same calendar day leave the `workoutDays` written by the
first. The function `completeWorkout` marks the day of its instant: that day
is in the `workoutDays` it writes, appended when it was not there before. -/
theorem markWorkoutDay_spec (workoutDays : List Nat) (today : Nat) :
    (today ∈ workoutDays → markWorkoutDay workoutDays today = workoutDays) ∧
    (today ∉ workoutDays → markWorkoutDay workoutDays today = workoutDays ++ [today]) ∧
    markWorkoutDay (markWorkoutDay workoutDays today) today =
      markWorkoutDay workoutDays today ∧
    (workoutDays.Nodup → (markWorkoutDay workoutDays today).Nodup) ∧
    (workoutDays.count today ≤ 1 →
      (markWorkoutDay (markWorkoutDay workoutDays today) today).count today = 1) ∧
    (∀ (workout : Workout) (now later : Nat) (a : Session),
      toDateString later = toDateString now →
      (completeWorkout workout later (completeWorkout workout now a)).storage.workoutDays =
        (completeWorkout workout now a).storage.workoutDays) ∧
    (∀ (workout : Workout) (now : Nat) (a : Session),
      (completeWorkout workout now a).storage.workoutDays =
        markWorkoutDay a.storage.workoutDays (toDateString now) ∧
      toDateString now ∈ (completeWorkout workout now a).storage.workoutDays ∧
      (toDateString now ∉ a.storage.workoutDays →
        (completeWorkout workout now a).storage.workoutDays =
          a.storage.workoutDays ++ [toDateString now]) ∧
      (toDateString now ∈ a.storage.workoutDays →
        (completeWorkout workout now a).storage.workoutDays = a.storage.workoutDays)) := by
  have hin : today ∈ workoutDays → markWorkoutDay workoutDays today = workoutDays := by
    intro h
    simp [markWorkoutDay, h]
  have hout : today ∉ workoutDays → markWorkoutDay workoutDays today = workoutDays ++ [today] := by
    intro h
    simp [markWorkoutDay, h]
  have hmem : ∀ (l : List Nat) (d : Nat), d ∈ markWorkoutDay l d := by
    intro l d
    by_cases h : d ∈ l <;> simp [markWorkoutDay, h]
  have hidem : ∀ (l : List Nat) (d : Nat),
      markWorkoutDay (markWorkoutDay l d) d = markWorkoutDay l d := by
    intro l d
    have h := hmem l d
    generalize markWorkoutDay l d = m at h ⊢
    simp [markWorkoutDay, h]
  refine ⟨hin, hout, hidem workoutDays today, ?_, ?_, ?_, ?_⟩
  · intro hnd
    by_cases h : today ∈ workoutDays
    · rw [hin h]; exact hnd
    · rw [hout h]
      exact List.Nodup.append hnd (List.nodup_singleton today) (by simpa using h)
  · intro hcount
    rw [hidem]
    by_cases h : today ∈ workoutDays
    · rw [hin h]
      have hpos : 0 < workoutDays.count today := List.count_pos_iff.mpr h
      omega
    · rw [hout h]
      simp [List.count_eq_zero_of_not_mem h]
  · intro workout now later a hday
    simp only [completeWorkout, hday]
    exact hidem _ _
  · intro workout now a
    refine ⟨rfl, hmem _ _, ?_, ?_⟩
    · intro h
      simp [completeWorkout, markWorkoutDay, h]
    · intro h
      simp [completeWorkout, markWorkoutDay, h]

/-- Witness of C19: two finalizations on day 3 over a store that knows
day 2. -/
theorem markWorkoutDay_spec_witness :
    markWorkoutDay (markWorkoutDay [2] 3) 3 = [2, 3] := by
  have h := markWorkoutDay_spec [2] 3
  rw [h.2.2.1, h.2.1 (by decide)]
  rfl

/-! ## The current streak (C20) -/

theorem fixedOffset_dayOf_midnight (offset D : Int) :
    (fixedOffset offset).dayOf ((fixedOffset offset).midnight D) = D := by
  simp only [fixedOffset, msPerDay]
  norm_num

theorem fixedOffset_dayOf_sub (offset t : Int) :
    (fixedOffset offset).dayOf (t - (msPerDay : Int)) = (fixedOffset offset).dayOf t - 1 := by
  simp only [fixedOffset, msPerDay]
  norm_num
  omega

theorem fixedOffset_midnight_lt_iff (offset D t : Int)
    (h : D ≠ (fixedOffset offset).dayOf t) :
    (fixedOffset offset).midnight D < t ↔ D < (fixedOffset offset).dayOf t := by
  simp only [fixedOffset, msPerDay] at h ⊢
  norm_num at h ⊢
  omega

theorem fixedOffset_midnight_le_iff (offset D E : Int) :
    (fixedOffset offset).midnight D ≤ (fixedOffset offset).midnight E ↔ D ≤ E := by
  simp only [fixedOffset, msPerDay]
  norm_num

theorem fixedOffset_midnight_inj (offset D E : Int)
    (h : (fixedOffset offset).midnight D = (fixedOffset offset).midnight E) : D = E := by
  simp only [fixedOffset, msPerDay] at h
  norm_num at h
  exact h

/-- In a zone without clock changes the loop counts the days present from the
cursor's day downwards without a gap, over a list of midnights sorted latest
first. -/
theorem streakLoop_spec (offset : Int) (S : List Int) (checkDate : Int) (streak : Nat)
    (hs : S.Sorted (fun a b => a ≥ b))
    (hm : ∀ x ∈ S, ∃ D : Int, x = (fixedOffset offset).midnight D) :
    ∃ k : Nat, streakLoop (fixedOffset offset) S checkDate streak = streak + k ∧
      (∀ i : Nat, i < k →
        (fixedOffset offset).midnight ((fixedOffset offset).dayOf checkDate - (i : Int)) ∈ S) ∧
      (fixedOffset offset).midnight ((fixedOffset offset).dayOf checkDate - (k : Int)) ∉ S := by
  induction S generalizing checkDate streak with
  | nil => exact ⟨0, by simp [streakLoop], by intro i hi; omega, by simp⟩
  | cons x rest ih =>
    obtain ⟨hall, hrest⟩ := List.sorted_cons.mp hs
    have hmrest : ∀ y ∈ rest, ∃ D : Int, y = (fixedOffset offset).midnight D :=
      fun y hy => hm y (List.mem_cons_of_mem x hy)
    obtain ⟨D, hD⟩ := hm x (List.mem_cons_self x rest)
    subst hD
    by_cases heq : D = (fixedOffset offset).dayOf checkDate
    · obtain ⟨k, hk, hin, hout⟩ := ih (checkDate - (msPerDay : Int)) (streak + 1) hrest hmrest
      rw [fixedOffset_dayOf_sub] at hin hout
      refine ⟨k + 1, ?_, ?_, ?_⟩
      · simp only [streakLoop, fixedOffset_dayOf_midnight, heq, if_true, hk]
        omega
      · intro i hi
        cases i with
        | zero => simp [heq]
        | succ j =>
          have hj := hin j (by omega)
          have hcast : (fixedOffset offset).dayOf checkDate - ((j + 1 : Nat) : Int) =
              (fixedOffset offset).dayOf checkDate - 1 - (j : Int) := by push_cast; ring
          rw [hcast]
          exact List.mem_cons_of_mem _ hj
      · have hcast : (fixedOffset offset).dayOf checkDate - ((k + 1 : Nat) : Int) =
            (fixedOffset offset).dayOf checkDate - 1 - (k : Int) := by push_cast; ring
        rw [hcast]
        intro hmem
        rcases List.mem_cons.mp hmem with h | h
        · have := fixedOffset_midnight_inj _ _ _ h
          omega
        · exact hout h
    · by_cases hlt : (fixedOffset offset).midnight D < checkDate
      · refine ⟨0, ?_, ?_, ?_⟩
        · simp [streakLoop, fixedOffset_dayOf_midnight, heq, hlt]
        · intro i hi; omega
        · have hD : D < (fixedOffset offset).dayOf checkDate :=
            (fixedOffset_midnight_lt_iff offset D checkDate heq).mp hlt
          simp only [Nat.cast_zero, sub_zero]
          intro hmem
          rcases List.mem_cons.mp hmem with h | h
          · have := fixedOffset_midnight_inj _ _ _ h
            omega
          · have hle := hall _ h
            have := (fixedOffset_midnight_le_iff _ _ _).mp hle
            omega
      · obtain ⟨k, hk, hin, hout⟩ := ih checkDate streak hrest hmrest
        refine ⟨k, ?_, ?_, ?_⟩
        · simp [streakLoop, fixedOffset_dayOf_midnight, heq, hlt, hk]
        · intro i hi
          exact List.mem_cons_of_mem _ (hin i hi)
        · have hD : ¬ D < (fixedOffset offset).dayOf checkDate :=
            fun h => hlt ((fixedOffset_midnight_lt_iff offset D checkDate heq).mpr h)
          intro hmem
          rcases List.mem_cons.mp hmem with h | h
          · have := fixedOffset_midnight_inj _ _ _ h
            omega
          · exact hout h

theorem currentStreak_eq_loop (zone : Zone) (workoutDays : List Nat) (now : Nat) :
    currentStreak zone workoutDays now =
      streakLoop zone (sortedDays zone workoutDays) (now : Int) 0 := by
  unfold currentStreak
  split_ifs with h
  · rfl
  · have hnil : sortedDays zone workoutDays = [] := by
      cases hsd : sortedDays zone workoutDays with
      | nil => rfl
      | cons x l => rw [hsd] at h; simp at h
    rw [hnil]
    rfl

theorem mem_sortedDays (zone : Zone) (workoutDays : List Nat) (x : Int) :
    x ∈ sortedDays zone workoutDays ↔ ∃ d ∈ workoutDays, zone.midnight (d : Int) = x := by
  unfold sortedDays
  rw [List.mem_insertionSort, List.mem_map]
  rfl

theorem dayBackStored_iff (offset : Int) (workoutDays : List Nat) (now : Nat) (i : Nat) :
    (fixedOffset offset).midnight ((fixedOffset offset).dayOf (now : Int) - (i : Int)) ∈
        sortedDays (fixedOffset offset) workoutDays ↔
      dayBackStored (fixedOffset offset) workoutDays now i := by
  rw [mem_sortedDays, dayBackStored]
  constructor
  · rintro ⟨d, hd, heq⟩
    exact ⟨d, hd, fixedOffset_midnight_inj _ _ _ heq⟩
  · rintro ⟨d, hd, heq⟩
    exact ⟨d, hd, by rw [heq]⟩

/-- In a zone without clock changes `currentStreak` is the number of days
stored without a gap from today downwards: each of the days today, ...,
`currentStreak - 1` days before today is stored, and the day `currentStreak`
days before today is not. -/
theorem currentStreak_core (offset : Int) (workoutDays : List Nat) (now : Nat) :
    (∀ i : Nat, i < currentStreak (fixedOffset offset) workoutDays now →
      dayBackStored (fixedOffset offset) workoutDays now i) ∧
    ¬ dayBackStored (fixedOffset offset) workoutDays now
      (currentStreak (fixedOffset offset) workoutDays now) := by
  have hsorted : (sortedDays (fixedOffset offset) workoutDays).Sorted (fun a b => a ≥ b) :=
    List.sorted_insertionSort (fun a b => a ≥ b) (workoutDays.map (dateOf (fixedOffset offset)))
  have hmid : ∀ x ∈ sortedDays (fixedOffset offset) workoutDays,
      ∃ D : Int, x = (fixedOffset offset).midnight D := by
    intro x hx
    obtain ⟨d, _, rfl⟩ := (mem_sortedDays _ _ _).mp hx
    exact ⟨(d : Int), rfl⟩
  obtain ⟨k, hk, hin, hout⟩ :=
    streakLoop_spec offset (sortedDays (fixedOffset offset) workoutDays) (now : Int) 0
      hsorted hmid
  have hcs : currentStreak (fixedOffset offset) workoutDays now = k := by
    rw [currentStreak_eq_loop, hk]; omega
  rw [hcs]
  exact ⟨fun i hi => (dayBackStored_iff offset workoutDays now i).mp (hin i hi),
    fun h => hout ((dayBackStored_iff offset workoutDays now k).mpr h)⟩

/-- In a zone without clock changes `currentStreak` is the largest `k` such
that today and the `k - 1` days before it are all stored; stored as today,
yesterday and three days ago, the days give a streak of 2. -/
theorem currentStreak_fixedOffset (offset : Int) (workoutDays : List Nat) (now : Nat) :
    (∀ i : Nat, i < currentStreak (fixedOffset offset) workoutDays now →
      ∃ d ∈ workoutDays, (d : Int) = (fixedOffset offset).dayOf (now : Int) - (i : Int)) ∧
    (∀ k : Nat,
      (∀ i : Nat, i < k →
        ∃ d ∈ workoutDays, (d : Int) = (fixedOffset offset).dayOf (now : Int) - (i : Int)) →
      k ≤ currentStreak (fixedOffset offset) workoutDays now) ∧
    (∀ t : Nat, (fixedOffset offset).dayOf (now : Int) = (t : Int) → 3 ≤ t →
      currentStreak (fixedOffset offset) [t, t - 1, t - 3] now = 2) := by
  refine ⟨(currentStreak_core offset workoutDays now).1, ?_, ?_⟩
  · intro k hk
    by_contra hlt
    exact (currentStreak_core offset workoutDays now).2 (hk _ (by omega))
  · intro t ht h3
    obtain ⟨hin, hout⟩ := currentStreak_core offset [t, t - 1, t - 3] now
    generalize currentStreak (fixedOffset offset) [t, t - 1, t - 3] now = k at hin hout
    simp only [dayBackStored, ht, List.mem_cons, List.mem_singleton, List.not_mem_nil,
      or_false, exists_eq_or_imp, exists_eq_left] at hin hout
    have hge : 2 ≤ k := by
      by_contra hlt
      apply hout
      have hk : k = 0 ∨ k = 1 := by omega
      rcases hk with rfl | rfl
      · left; simp
      · right; left; push_cast; omega
    have hle : k ≤ 2 := by
      by_contra hgt
      have h2 := hin 2 (by omega)
      push_cast at h2
      omega
    omega

/-- The loop counts nothing when no day of the list is the cursor's day. -/
theorem streakLoop_no_match (zone : Zone) (S : List Int) (checkDate : Int)
    (h : ∀ x ∈ S, zone.dayOf x ≠ zone.dayOf checkDate) :
    streakLoop zone S checkDate 0 = 0 := by
  induction S with
  | nil => rfl
  | cons x rest ih =>
    have hx := h x (List.mem_cons_self x rest)
    have hrest : ∀ y ∈ rest, zone.dayOf y ≠ zone.dayOf checkDate :=
      fun y hy => h y (List.mem_cons_of_mem x hy)
    simp only [streakLoop, hx, if_false]
    split_ifs
    · rfl
    · exact ih hrest

/-- C20 (evaluation at the failing input): in New York at 23:30 on 1 November
2026, a day of 25 hours, with today (day 20758) and yesterday (day 20757)
stored and the day before yesterday not, `currentStreak` is 1, where the
claim gives 2: the cursor moved back by 24 hours is at 00:30 of the same day,
so yesterday ends the loop. -/
theorem currentStreak_fall_back_day :
    newYork.dayOf 1793593800000 = 20758 ∧
    newYork.dayOf (1793593800000 - (msPerDay : Int)) = 20758 ∧
    sortedDays newYork [20757, 20758] = [newYork.midnight 20758, newYork.midnight 20757] ∧
    (∀ i : Nat, i < 2 → dayBackStored newYork [20757, 20758] 1793593800000 i) ∧
    ¬ dayBackStored newYork [20757, 20758] 1793593800000 2 ∧
    currentStreak newYork [20757, 20758] 1793593800000 = 1 := by
  have hd : newYork.dayOf ((1793593800000 : Nat) : Int) = 20758 := by decide
  refine ⟨by decide, by decide, by decide, ?_, ?_, by decide⟩
  · intro i hi
    simp only [dayBackStored, hd]
    rcases (by omega : i = 0 ∨ i = 1) with rfl | rfl
    · exact ⟨20758, by simp, by norm_num⟩
    · exact ⟨20757, by simp, by norm_num⟩
  · simp only [dayBackStored, hd]
    rintro ⟨d, hmem, heq⟩
    simp only [List.mem_cons, List.mem_singleton, List.not_mem_nil, or_false] at hmem
    rcases hmem with rfl | rfl <;> norm_num at heq

/-! ## A streak without today (C21) -/

/-- C21 (counterexample): at noon UTC on day 20758, with the two days before
it stored and day 20758 not stored, the streak is 0, not 2. -/
theorem currentStreak_without_today :
    utc.dayOf ((20758 * msPerDay + 12 * msPerHour : Nat) : Int) = 20758 ∧
    currentStreak utc [20757, 20756] (20758 * msPerDay + 12 * msPerHour) = 0 := by
  decide

/-- C21 (amended): a streak requires today. In every zone in which a day's
midnight lies on that day, the streak is 0 when today is not a stored workout
day, whatever earlier days are stored; and in a zone without clock changes,
when today and the `k - 1` days before it are stored, the streak is at least
`k`. -/
theorem currentStreak_requires_today (zone : Zone)
    (hsound : ∀ d : Int, zone.dayOf (zone.midnight d) = d)
    (workoutDays : List Nat) (now : Nat) :
    ((∀ d ∈ workoutDays, (d : Int) ≠ zone.dayOf (now : Int)) →
      currentStreak zone workoutDays now = 0) ∧
    (∀ (offset : Int) (k : Nat), zone = fixedOffset offset →
      (∀ i : Nat, i < k → ∃ d ∈ workoutDays, (d : Int) = zone.dayOf (now : Int) - (i : Int)) →
      k ≤ currentStreak zone workoutDays now) := by
  constructor
  · intro htoday
    rw [currentStreak_eq_loop]
    apply streakLoop_no_match
    intro x hx
    obtain ⟨d, hd, rfl⟩ := (mem_sortedDays _ _ _).mp hx
    rw [hsound]
    exact htoday d hd
  · intro offset k hz hall
    subst hz
    obtain ⟨hin, hout⟩ := currentStreak_core offset workoutDays now
    by_contra hlt
    apply hout
    exact hall _ (by omega)

/-- Witness of C21 (amended): New York at 23:30 on 1 November 2026, with the
two days before stored and the day itself not. -/
theorem currentStreak_requires_today_witness :
    currentStreak newYork [20757, 20756] 1793593800000 = 0 := by
  have hsound : ∀ d : Int, newYork.dayOf (newYork.midnight d) = d := by
    intro d
    simp only [newYork, fallBack2026, msPerDay, msPerHour]
    norm_num
    split_ifs <;> omega
  have hd : newYork.dayOf ((1793593800000 : Nat) : Int) = 20758 := by decide
  refine (currentStreak_requires_today newYork hsound [20757, 20756] 1793593800000).1 ?_
  intro d hmem
  rw [hd]
  simp only [List.mem_cons, List.mem_singleton, List.not_mem_nil, or_false] at hmem
  rcases hmem with rfl | rfl <;> norm_num

/-! ## The week and month counts (C22) -/

/-- C22 (counterexample): a record completed one millisecond after `now` is
counted in `weekWorkouts` and `monthWorkouts` although it lies outside the
closed windows ending at `now`. -/
theorem weekWorkouts_counts_later_record :
    (weekWorkouts [workoutRecord twoByThree 1000000001 60] 1000000000).length = 1 ∧
    (monthWorkouts [workoutRecord twoByThree 1000000001 60] 1000000000).length = 1 ∧
    ([workoutRecord twoByThree 1000000001 60].filter (specInWindow 7 1000000000)).length = 0 ∧
    ([workoutRecord twoByThree 1000000001 60].filter (specInWindow 30 1000000000)).length = 0 := by
  decide

/-- C22 (amended): `weekWorkouts` holds exactly the records whose
`completedAt` is at or after `now` minus 7 days, and `monthWorkouts` those at
or after `now` minus 30 days, with no upper bound; a record without
`completedAt` is in neither. For a history with no record completed after
`now` the counts are those of the closed windows ending at `now`. -/
theorem weekWorkouts_spec (workoutHistory : List WorkoutRecord) (now : Nat) :
    (∀ w, w ∈ weekWorkouts workoutHistory now ↔
      w ∈ workoutHistory ∧ ∃ t, w.completedAt = some t ∧
        (now : Int) - 7 * 24 * 60 * 60 * 1000 ≤ (t : Int)) ∧
    (∀ w, w ∈ monthWorkouts workoutHistory now ↔
      w ∈ workoutHistory ∧ ∃ t, w.completedAt = some t ∧
        (now : Int) - 30 * 24 * 60 * 60 * 1000 ≤ (t : Int)) ∧
    (∀ w, w.completedAt = none →
      w ∉ weekWorkouts workoutHistory now ∧ w ∉ monthWorkouts workoutHistory now) ∧
    ((∀ w ∈ workoutHistory, ∀ t, w.completedAt = some t → t ≤ now) →
      (weekWorkouts workoutHistory now).length =
        (workoutHistory.filter (specInWindow 7 now)).length ∧
      (monthWorkouts workoutHistory now).length =
        (workoutHistory.filter (specInWindow 30 now)).length) := by
  have hmem : ∀ (bound : Int) (w : WorkoutRecord),
      completedSince bound w = true ↔ ∃ t, w.completedAt = some t ∧ bound ≤ (t : Int) := by
    intro bound w
    cases hc : w.completedAt <;> simp [completedSince, hc]
  refine ⟨?_, ?_, ?_, ?_⟩
  · intro w
    simp only [weekWorkouts, List.mem_filter, hmem, weekAgo]
  · intro w
    simp only [monthWorkouts, List.mem_filter, hmem, monthAgo]
  · intro w hnone
    simp [weekWorkouts, monthWorkouts, List.mem_filter, completedSince, hnone]
  · intro hpast
    have hsame : ∀ (days : Nat) (bound : Int),
        bound = (now : Int) - (days : Int) * 24 * 60 * 60 * 1000 →
        workoutHistory.filter (completedSince bound) =
          workoutHistory.filter (specInWindow days now) := by
      intro days bound hb
      apply List.filter_congr
      intro w hw
      cases hc : w.completedAt with
      | none => simp [completedSince, specInWindow, hc]
      | some t =>
        have ht := hpast w hw t hc
        simp only [completedSince, specInWindow, hc, hb]
        have ht2 : (t : Int) ≤ (now : Int) := by exact_mod_cast ht
        simp [ht]
    constructor
    · rw [weekWorkouts, hsame 7 (weekAgo now) (by simp [weekAgo])]
    · rw [monthWorkouts, hsame 30 (monthAgo now) (by simp [monthAgo])]

/-- Witness of C22 (amended): a history of one finished and one unfinished
record, read one hour after the finish. -/
theorem weekWorkouts_spec_witness :
    (weekWorkouts (handleStartWorkout twoByThree 3600000
        { workoutHistory := [workoutRecord twoByThree 0 60], workoutDays := [0] }).workoutHistory
      3600000).length = 1 := by
  rw [((weekWorkouts_spec _ 3600000).2.2.2 (by decide)).1]
  decide

/-! ## The recovery estimate (C23, C24, C25, C26) -/

theorem mem_newSet (xs : List String) (y : String) : y ∈ newSet xs ↔ y ∈ xs := by
  induction xs with
  | nil => simp [newSet]
  | cons x xs ih =>
    simp only [newSet, List.mem_cons, List.mem_filter, ih]
    by_cases h : y = x <;> simp [h]

theorem nodup_newSet (xs : List String) : (newSet xs).Nodup := by
  induction xs with
  | nil => simp [newSet]
  | cons x xs ih =>
    simp only [newSet, List.nodup_cons, List.mem_filter]
    exact ⟨by simp, ih.filter _⟩

theorem length_newSet (xs : List String) : (newSet xs).length = xs.toFinset.card := by
  rw [← List.toFinset_card_of_nodup (nodup_newSet xs)]
  congr 1
  ext y
  simp [mem_newSet]

theorem inLast48Hours_iff (now : Nat) (w : PostedWorkout) :
    inLast48Hours now w = true ↔
      ∃ d, w.date = some d ∧ (now : Int) - (d : Int) < 48 * 60 * 60 * 1000 := by
  cases hd : w.date with
  | none => simp [inLast48Hours, hd]
  | some d =>
    have hq : ((((now : Int) - (d : Int) : Int) : ℚ) / (1000 * 60 * 60) < 48) ↔
        (now : Int) - (d : Int) < 48 * 60 * 60 * 1000 := by
      rw [div_lt_iff₀ (by norm_num)]
      constructor
      · intro h
        have h2 : (((now : Int) - (d : Int) : Int) : ℚ) < ((48 * 60 * 60 * 1000 : Int) : ℚ) := by
          push_cast; push_cast at h; linarith
        exact_mod_cast h2
      · intro h
        have h2 : (((now : Int) - (d : Int) : Int) : ℚ) < ((48 * 60 * 60 * 1000 : Int) : ℚ) := by
          exact_mod_cast h
        push_cast at h2 ⊢
        linarith
    simp only [inLast48Hours, hd, decide_eq_true_eq]
    rw [hq]
    constructor
    · intro h
      exact ⟨d, rfl, h⟩
    · rintro ⟨e, he, h⟩
      cases he
      exact h

theorem recoveryHours_eq (workout : PostedWorkout) (previousWorkouts : List PostedWorkout)
    (now : Nat) :
    recoveryHours workout previousWorkouts now =
      24 + 6 * (musclesWorked workout.main).toFinset.card +
        (if previousWorkouts.any (inLast48Hours now) then 12 else 0) := by
  have hlen : ((previousWorkouts.filter (inLast48Hours now)).length > 0) ↔
      previousWorkouts.any (inLast48Hours now) = true := by
    rw [gt_iff_lt, List.length_pos, List.any_eq_true]
    constructor
    · intro h
      obtain ⟨w, hw⟩ := List.exists_mem_of_ne_nil _ h
      exact ⟨w, (List.mem_filter.mp hw).1, (List.mem_filter.mp hw).2⟩
    · rintro ⟨w, hw, hp⟩
      exact List.ne_nil_of_mem (List.mem_filter.mpr ⟨hw, hp⟩)
  unfold recoveryHours
  rw [length_newSet]
  by_cases h : previousWorkouts.any (inLast48Hours now) = true
  · rw [if_pos (hlen.mpr h), if_pos h]
    omega
  · rw [if_neg (fun hh => h (hlen.mp hh)), if_neg h]
    omega

/-- C23: with `k` the number of distinct non-empty targets of the main steps
and `b` equal to 12 when some previous workout passes the test of the last 48
hours and to 0 otherwise, `estimatedHours` is the minimum of `24 + 6k + b` and
72; so it lies between 24 and 72, is 42 for three muscles without a recent
workout, and is 72 for ten muscles. -/
theorem estimateRecovery_hours (workout : PostedWorkout)
    (previousWorkouts : List PostedWorkout) (now : Nat) :
    (estimateRecovery workout previousWorkouts now).estimatedHours =
      min (24 + 6 * (musclesWorked workout.main).toFinset.card +
        (if previousWorkouts.any (inLast48Hours now) then 12 else 0)) 72 ∧
    (∀ t : String, t ∈ (musclesWorked workout.main).toFinset ↔
      ∃ e ∈ workout.main, e.target = some t ∧ t.data ≠ []) ∧
    24 ≤ (estimateRecovery workout previousWorkouts now).estimatedHours ∧
    (estimateRecovery workout previousWorkouts now).estimatedHours ≤ 72 ∧
    ((musclesWorked workout.main).toFinset.card = 3 →
      previousWorkouts.any (inLast48Hours now) = false →
      (estimateRecovery workout previousWorkouts now).estimatedHours = 42) ∧
    ((musclesWorked workout.main).toFinset.card = 10 →
      (estimateRecovery workout previousWorkouts now).estimatedHours = 72) := by
  have hest : (estimateRecovery workout previousWorkouts now).estimatedHours =
      min (recoveryHours workout previousWorkouts now) 72 := rfl
  have hrec := recoveryHours_eq workout previousWorkouts now
  refine ⟨by rw [hest, hrec], ?_, ?_, ?_, ?_, ?_⟩
  · intro t
    simp only [List.mem_toFinset, musclesWorked, List.mem_filterMap]
    constructor
    · rintro ⟨e, he, ht⟩
      cases htar : e.target with
      | none => simp [htar] at ht
      | some u =>
        rw [htar] at ht
        by_cases hu : u.data = []
        · simp [hu] at ht
        · simp only [hu, if_false, Option.some.injEq] at ht
          subst ht
          exact ⟨e, he, htar, hu⟩
    · rintro ⟨e, he, htar, hu⟩
      exact ⟨e, he, by simp [htar, hu]⟩
  · rw [hest, hrec]
    split_ifs <;> omega
  · rw [hest]
    omega
  · intro hk hb
    rw [hest, hrec, hk, hb]
    rfl
  · intro hk
    rw [hest, hrec, hk]
    split_ifs <;> rfl

/-- Witness of C23: the three-muscle plan with no previous workout. -/
theorem estimateRecovery_hours_witness :
    (estimateRecovery (toPosted (workoutRecord threeMuscles 0 600)) [] msPerHour).estimatedHours =
      42 :=
  (estimateRecovery_hours (toPosted (workoutRecord threeMuscles 0 600)) [] msPerHour).2.2.2.2.1
    (by decide) rfl

/-- C24 (evaluation at the failing input): for a history whose last record
works three muscles and whose record before it was completed ten hours
earlier, the request built by `RecoveryStatus` carries both `completedAt`
values but no `date`, and the estimate at the instant of the last completion
is 42 hours, not 54. -/
theorem recovery_ignores_completedAt :
    (recoveryRequest
      [workoutRecord twoByThree (38 * msPerHour) 600,
       workoutRecord threeMuscles (48 * msPerHour) 600]).map
      (fun q => (q.2.map (fun w => (w.date, w.completedAt)),
        (estimateRecovery q.1 q.2 (48 * msPerHour)).estimatedHours)) =
      some ([(none, some (38 * msPerHour)), (none, some (48 * msPerHour))], 42) := by
  decide

/-- C25: the endpoint returns the rest-day recommendation exactly when the
reported `estimatedHours` is greater than 48 and the light-workout
recommendation exactly when it is at most 48. -/
theorem estimateRecovery_recommendation (workout : PostedWorkout)
    (previousWorkouts : List PostedWorkout) (now : Nat) :
    ((estimateRecovery workout previousWorkouts now).recommendation = Recommendation.restDay ↔
      (estimateRecovery workout previousWorkouts now).estimatedHours > 48) ∧
    ((estimateRecovery workout previousWorkouts now).recommendation =
        Recommendation.lightWorkout ↔
      (estimateRecovery workout previousWorkouts now).estimatedHours ≤ 48) := by
  simp only [estimateRecovery]
  by_cases h : recoveryHours workout previousWorkouts now > 48
  · simp only [h, if_true]
    constructor
    · simp only [true_iff]
      omega
    · simp only [reduceCtorEq, false_iff]
      omega
  · simp only [h, if_false]
    constructor
    · simp only [reduceCtorEq, false_iff]
      omega
    · simp only [true_iff]
      omega

/-- C26 (counterexample): for the ten-muscle plan completed at instant 0 and
estimated ten hours later, the reported `estimatedHours` is 72 while
`nextWorkoutDate` lies 84 hours after the instant of the estimate, that is 94
hours after the completion; for the three-muscle plan it lies 42 hours after
the instant of the estimate, not after the completion. -/
theorem nextWorkoutDate_not_from_completion :
    (estimateRecovery (toPosted (workoutRecord tenMuscles 0 600)) []
      (10 * msPerHour)).estimatedHours = 72 ∧
    (estimateRecovery (toPosted (workoutRecord tenMuscles 0 600)) []
      (10 * msPerHour)).nextWorkoutDate = 10 * msPerHour + 84 * msPerHour ∧
    (estimateRecovery (toPosted (workoutRecord threeMuscles 0 600)) []
      (10 * msPerHour)).estimatedHours = 42 ∧
    (estimateRecovery (toPosted (workoutRecord threeMuscles 0 600)) []
      (10 * msPerHour)).nextWorkoutDate = 10 * msPerHour + 42 * msPerHour := by
  decide

/-- C26 (amended): `nextWorkoutDate` is counted from the instant of the
estimate; whenever the hours computed before the clamp are at most 72 it is
that instant plus exactly `estimatedHours` hours. -/
theorem nextWorkoutDate_spec (workout : PostedWorkout)
    (previousWorkouts : List PostedWorkout) (now : Nat)
    (h : recoveryHours workout previousWorkouts now ≤ 72) :
    (estimateRecovery workout previousWorkouts now).nextWorkoutDate =
      now + (estimateRecovery workout previousWorkouts now).estimatedHours * msPerHour := by
  simp only [estimateRecovery, msPerHour, Nat.min_eq_left h]
  ring

/-- Witness of C26 (amended): the three-muscle plan, estimated ten hours after
its completion. -/
theorem nextWorkoutDate_spec_witness :
    (estimateRecovery (toPosted (workoutRecord threeMuscles 0 600)) []
      (10 * msPerHour)).nextWorkoutDate = 10 * msPerHour + 42 * msPerHour := by
  rw [nextWorkoutDate_spec (toPosted (workoutRecord threeMuscles 0 600)) [] (10 * msPerHour)
    (by decide)]
  decide

/-! ## Enrichment (C27, C28) -/

theorem includes_iff_infix (s t : List Char) : includes s t = true ↔ t <:+: s := by
  simp only [includes, List.any_eq_true, List.mem_tails, List.isPrefixOf_iff_prefix]
  rw [List.infix_iff_prefix_suffix]
  constructor
  · rintro ⟨u, hu, ht⟩
    exact ⟨u, ht, hu⟩
  · rintro ⟨u, ht, hu⟩
    exact ⟨u, hu, ht⟩

theorem enrichExerciseWith_name (lower : String → List Char) (exercises : List CatalogEntry)
    (exercise : Exercise) :
    (enrichExerciseWith lower exercises exercise).name = exercise.name := by
  unfold enrichExerciseWith
  cases exercises.find? (nameMatchesWith lower exercise) <;> rfl

theorem enrichWorkout_eq_with (exercises : List CatalogEntry) (workout : Workout) :
    enrichWorkout exercises workout = enrichWorkoutWith toLowerCase exercises workout := rfl

/-- C27: whatever function `lower` JavaScript's `toLowerCase` is, enrichment
leaves warmup and cooldown as they are and keeps the number, order and names
of the main steps; a main step gets the id, target and gif of the first
catalog entry, in catalog order, whose lower-cased name contains the
lower-cased step name or is contained in it (the gif as that entry carries
it); when no entry matches, the three fields are absent on that step. -/
theorem enrichWorkout_spec (lower : String → List Char) (exercises : List CatalogEntry)
    (workout : Workout) :
    (enrichWorkoutWith lower exercises workout).warmup = workout.warmup ∧
    (enrichWorkoutWith lower exercises workout).cooldown = workout.cooldown ∧
    (enrichWorkoutWith lower exercises workout).main.length = workout.main.length ∧
    (enrichWorkoutWith lower exercises workout).main.map (fun e => e.name) =
      workout.main.map (fun e => e.name) ∧
    (∀ (exercise : Exercise) (e : CatalogEntry), nameMatchesWith lower exercise e = true ↔
      (lower exercise.name <:+: lower e.name ∨ lower e.name <:+: lower exercise.name)) ∧
    (∀ (i : Nat) (exercise : Exercise), workout.main[i]? = some exercise →
      (enrichWorkoutWith lower exercises workout).main[i]? =
        some (enrichExerciseWith lower exercises exercise) ∧
      (∀ (before : List CatalogEntry) (e : CatalogEntry) (after : List CatalogEntry),
        exercises = before ++ e :: after → nameMatchesWith lower exercise e = true →
        (∀ x ∈ before, nameMatchesWith lower exercise x = false) →
        (enrichExerciseWith lower exercises exercise).id = some e.id ∧
        (enrichExerciseWith lower exercises exercise).target = some e.target ∧
        (enrichExerciseWith lower exercises exercise).gifUrl = e.gifUrl) ∧
      ((∀ x ∈ exercises, nameMatchesWith lower exercise x = false) →
        (enrichExerciseWith lower exercises exercise).id = none ∧
        (enrichExerciseWith lower exercises exercise).target = none ∧
        (enrichExerciseWith lower exercises exercise).gifUrl = none)) := by
  refine ⟨rfl, rfl, by simp [enrichWorkoutWith], ?_, ?_, ?_⟩
  · simp only [enrichWorkoutWith, List.map_map]
    apply List.map_congr_left
    intro e _
    exact enrichExerciseWith_name lower exercises e
  · intro exercise e
    simp only [nameMatchesWith, Bool.or_eq_true, includes_iff_infix]
  · intro i exercise hi
    refine ⟨by simp [enrichWorkoutWith, hi], ?_, ?_⟩
    · intro before e after hsplit hmatch hbefore
      have hfind : exercises.find? (nameMatchesWith lower exercise) = some e := by
        rw [List.find?_eq_some]
        refine ⟨hmatch, before, after, hsplit, ?_⟩
        intro x hx
        simp [hbefore x hx]
      simp [enrichExerciseWith, hfind]
    · intro hnone
      have hfind : exercises.find? (nameMatchesWith lower exercise) = none := by
        rw [List.find?_eq_none]
        intro x hx
        simp [hnone x hx]
      simp [enrichExerciseWith, hfind]

/-- Witness of C27: a step matched by the second of three catalog entries,
of which only the third carries a gif. -/
theorem enrichWorkout_spec_witness :
    (enrichExerciseWith toLowerCase
      [{ id := "0001", name := "3/4 sit-up", target := "abs", gifUrl := none },
       { id := "0662", name := "push-up", target := "pectorals", gifUrl := none },
       { id := "0663", name := "push-up (wall)", target := "pectorals", gifUrl := some "g3" }]
      (step "Push-Up" (some 3))).id = some "0662" :=
  (((enrichWorkout_spec toLowerCase
      [{ id := "0001", name := "3/4 sit-up", target := "abs", gifUrl := none },
       { id := "0662", name := "push-up", target := "pectorals", gifUrl := none },
       { id := "0663", name := "push-up (wall)", target := "pectorals", gifUrl := some "g3" }]
      (plan [] [step "Push-Up" (some 3)] [])).2.2.2.2.2 0 (step "Push-Up" (some 3)) rfl).2.1
    [{ id := "0001", name := "3/4 sit-up", target := "abs", gifUrl := none }]
    { id := "0662", name := "push-up", target := "pectorals", gifUrl := none }
    [{ id := "0663", name := "push-up (wall)", target := "pectorals", gifUrl := some "g3" }]
    rfl (by decide) (by decide)).1

/-- C28 (counterexample): a main step named "Push-up" enriched against a
catalog whose only entry is named "push up" gets no id. -/
theorem enrich_hyphen_no_match :
    (enrichWorkout [{ id := "0662", name := "push up", target := "pectorals", gifUrl := "g" }]
      (plan [] [step "Push-up" (some 3)] [])).main.map (fun e => e.id) = [none] := by
  decide

/-- C28 (amended): enrichment matching is insensitive to the case of the
letters A to Z and sensitive to every other character, hyphens included: two
names with the same lower-cased characters always match, so "Push-Up" gets
the id of the catalog entry "push-up", while "Push-up" and "push up" do not
match. -/
theorem enrich_case_insensitive (exercise : Exercise) (e : CatalogEntry)
    (h : toLowerCase exercise.name = toLowerCase e.name) :
    nameMatches exercise e = true ∧
    (enrichWorkout [e] (plan [] [exercise] [])).main.map (fun x => x.id) = [some e.id] := by
  have hm : nameMatches exercise e = true := by
    simp only [nameMatches, Bool.or_eq_true, includes_iff_infix, h]
    exact Or.inl (List.infix_refl _)
  refine ⟨hm, ?_⟩
  simp [enrichWorkout, plan, enrichExercise, List.find?, hm]

/-- Witness of C28 (amended): "Push-Up" against the catalog entry
"push-up". -/
theorem enrich_case_insensitive_witness :
    (enrichWorkout [{ id := "0662", name := "push-up", target := "pectorals", gifUrl := "g" }]
      (plan [] [step "Push-Up" (some 3)] [])).main.map (fun x => x.id) = [some "0662"] :=
  (enrich_case_insensitive (step "Push-Up" (some 3))
    { id := "0662", name := "push-up", target := "pectorals", gifUrl := "g" }
    (by decide)).2

/-! ## Reaching `complete` (C29) -/

theorem setsLeft_entered (workout : Workout) (s : PlayerState) (e : Exercise)
    (hphase : s.currentPhase = Phase.main)
    (hcur : workout.main[s.currentExerciseIndex]? = some e)
    (hset : s.currentSet = 1) :
    setsLeft workout s + 1 = setCost e := by
  unfold setsLeft setsRemain setCost
  simp only [currentExercise, hphase, getCurrentExercises, hcur, setsField, hset]
  cases hs : e.sets with
  | none => simp [truthy, parseIntOr1]
  | some n =>
    by_cases h0 : n = 0
    · subst h0
      simp [truthy, parseIntOr1]
    · by_cases h1 : (1 : Int) < n
      · simp [truthy, parseIntOr1, h0, h1]
        omega
      · simp [truthy, parseIntOr1, h0, h1]
        omega

theorem sum_setCost_drop (l : List Exercise) (j : Nat) (e : Exercise) (h : l[j]? = some e) :
    ((l.drop j).map setCost).sum = setCost e + ((l.drop (j + 1)).map setCost).sum := by
  induction l generalizing j with
  | nil => simp at h
  | cons x l ih =>
    cases j with
    | zero =>
      simp at h
      subst h
      simp
    | succ j =>
      simp at h
      simpa using ih j h

theorem callsLeft_warmup (workout : Workout) (s : PlayerState)
    (hp : s.currentPhase = Phase.warmup) :
    callsLeft workout s =
      max (workout.warmup.length - s.currentExerciseIndex) 1 +
        (workout.main.map setCost).sum + workout.cooldown.length := by
  simp [callsLeft, hp]

theorem callsLeft_main (workout : Workout) (s : PlayerState)
    (hp : s.currentPhase = Phase.main) :
    callsLeft workout s =
      setsLeft workout s + 1 +
        ((workout.main.drop (s.currentExerciseIndex + 1)).map setCost).sum +
        workout.cooldown.length := by
  simp [callsLeft, hp]

theorem callsLeft_cooldown (workout : Workout) (s : PlayerState)
    (hp : s.currentPhase = Phase.cooldown) :
    callsLeft workout s = max (workout.cooldown.length - s.currentExerciseIndex) 1 := by
  simp [callsLeft, hp]

theorem callsLeft_complete (workout : Workout) (s : PlayerState)
    (hp : s.currentPhase = Phase.complete) : callsLeft workout s = 0 := by
  simp [callsLeft, hp]

theorem callsLeft_enter_main (workout : Workout) (s : PlayerState) (j : Nat)
    (hp : s.currentPhase = Phase.main) (hi : s.currentExerciseIndex = j)
    (hset : s.currentSet = 1) (hj : j < workout.main.length) :
    callsLeft workout s =
      ((workout.main.drop j).map setCost).sum + workout.cooldown.length := by
  have hcur : workout.main[s.currentExerciseIndex]? = some (workout.main.get ⟨j, hj⟩) := by
    rw [hi]
    exact List.getElem?_eq_getElem hj
  rw [callsLeft_main workout s hp, setsLeft_entered workout s _ hp hcur hset, hi,
    sum_setCost_drop workout.main j _ (List.getElem?_eq_getElem hj)]
  rfl

theorem setsLeft_next_set (workout : Workout) (s : PlayerState)
    (hrem : setsRemain workout s = true) :
    setsLeft workout { s with currentSet := s.currentSet + 1, isResting := true } + 1 ≤
      setsLeft workout s := by
  have hcur : currentExercise workout { s with currentSet := s.currentSet + 1, isResting := true }
      = currentExercise workout s := rfl
  have hlt : (s.currentSet : Int) < parseIntOr1 (setsField (currentExercise workout s)) := by
    simp only [setsRemain, Bool.and_eq_true, decide_eq_true_eq] at hrem
    exact hrem.2
  unfold setsLeft
  rw [if_pos hrem, hcur]
  split_ifs
  · push_cast
    omega
  · omega

theorem callsLeft_nextExercise (workout : Workout) (now : Nat) (a : Session)
    (h : a.player.currentPhase ≠ Phase.complete) :
    callsLeft workout (nextExercise workout now a).player + 1 ≤ callsLeft workout a.player := by
  by_cases hrem : setsRemain workout a.player = true
  · have hp : a.player.currentPhase = Phase.main := by
      simp only [setsRemain, Bool.and_eq_true, decide_eq_true_eq] at hrem
      exact hrem.1.1
    have hstep := setsLeft_next_set workout a.player hrem
    have hnew : callsLeft workout
        { a.player with currentSet := a.player.currentSet + 1, isResting := true } =
        setsLeft workout
          { a.player with currentSet := a.player.currentSet + 1, isResting := true } + 1 +
          ((workout.main.drop (a.player.currentExerciseIndex + 1)).map setCost).sum +
          workout.cooldown.length := callsLeft_main workout _ hp
    rw [nextExercise_of_setsRemain workout now a hrem, callsLeft_main workout a.player hp]
    show callsLeft workout
      { a.player with currentSet := a.player.currentSet + 1, isResting := true } + 1 ≤ _
    rw [hnew]
    dsimp only at hstep ⊢
    omega
  · have hrem2 : setsRemain workout a.player = false := by simpa using hrem
    have hleft : setsLeft workout a.player = 0 := by simp [setsLeft, hrem2]
    unfold nextExercise
    simp only [hrem2, Bool.false_eq_true, if_false]
    cases hp : a.player.currentPhase with
    | complete => exact absurd hp h
    | warmup =>
      rw [callsLeft_warmup workout a.player hp]
      simp only [getCurrentExercises, reduceCtorEq, false_and, if_false, true_and]
      split_ifs with h2 h3
      · simp only [callsLeft]
        omega
      · have hnew := callsLeft_enter_main workout
          { currentPhase := Phase.main, currentExerciseIndex := 0, currentSet := 1,
            isResting := false, timer := a.player.timer, isRunning := a.player.isRunning }
          0 rfl rfl rfl h3
        simp only [List.drop_zero] at hnew
        simp only [hnew]
        omega
      · simp only [completeWorkout, callsLeft]
        omega
    | main =>
      rw [callsLeft_main workout a.player hp, hleft]
      simp only [getCurrentExercises, reduceCtorEq, false_and, if_false, true_and]
      split_ifs with h2 h3
      · have hnew := callsLeft_enter_main workout
          { currentPhase := Phase.main,
            currentExerciseIndex := a.player.currentExerciseIndex + 1, currentSet := 1,
            isResting := false, timer := a.player.timer, isRunning := a.player.isRunning }
          (a.player.currentExerciseIndex + 1) rfl rfl rfl (by omega)
        simp only [hnew]
        omega
      · simp only [callsLeft]
        omega
      · simp only [completeWorkout, callsLeft]
        omega
    | cooldown =>
      rw [callsLeft_cooldown workout a.player hp]
      simp only [getCurrentExercises, reduceCtorEq, false_and, if_false]
      split_ifs with h2
      · simp only [callsLeft]
        omega
      · simp only [completeWorkout, callsLeft]
        omega

theorem callsLeft_pos (workout : Workout) (now : Nat) (a : Session)
    (h : a.player.currentPhase ≠ Phase.complete) : 0 < callsLeft workout a.player := by
  have := callsLeft_nextExercise workout now a h
  omega

theorem nextExercise_complete_phase (workout : Workout) (now : Nat) (a : Session)
    (h : a.player.currentPhase = Phase.complete) :
    (nextExercise workout now a).player.currentPhase = Phase.complete := by
  rw [nextExercise_complete_player workout now a h]
  exact h

theorem advanceN_complete_phase (workout : Workout) (now : Nat) (n : Nat) (a : Session)
    (h : a.player.currentPhase = Phase.complete) :
    (advanceN workout now n a).player.currentPhase = Phase.complete := by
  induction n generalizing a with
  | zero => exact h
  | succ n ih => exact ih _ (nextExercise_complete_phase workout now a h)

theorem advanceN_reaches_complete (workout : Workout) (now : Nat) (n : Nat) (a : Session)
    (h : callsLeft workout a.player ≤ n) :
    (advanceN workout now n a).player.currentPhase = Phase.complete := by
  induction n generalizing a with
  | zero =>
    by_contra hne
    have := callsLeft_pos workout now a hne
    omega
  | succ n ih =>
    by_cases hp : a.player.currentPhase = Phase.complete
    · exact advanceN_complete_phase workout now (n + 1) a hp
    · have hdec := callsLeft_nextExercise workout now a hp
      exact ih (nextExercise workout now a) (by omega)

theorem setCost_eq (e : Exercise) : setCost e = (max (e.sets.getD 1) 1).toNat := by
  unfold setCost parseIntOr1
  cases hs : e.sets with
  | none => rfl
  | some n =>
    by_cases h0 : n = 0
    · subst h0; rfl
    · simp [h0]

/-- C29: from the initial state, phase `complete` is reached after at most
`max(|warmup|, 1)` plus the sum over the main steps of `max(sets, 1)` (a step
without a set count counting 1) plus `|cooldown|` calls of `nextExercise`, and
every later call stays in `complete`; this holds for every plan, so also for
every plan whose declared set counts are positive. -/
theorem advance_reaches_complete (workout : Workout) (now : Nat) (st : LocalStorage) :
    ∃ n : Nat,
      n ≤ max workout.warmup.length 1 +
          (workout.main.map (fun e => (max (e.sets.getD 1) 1).toNat)).sum +
          workout.cooldown.length ∧
      (advanceN workout now n (initialSession st)).player.currentPhase = Phase.complete ∧
      ∀ m : Nat, n ≤ m →
        (advanceN workout now m (initialSession st)).player.currentPhase = Phase.complete := by
  have hmap : workout.main.map (fun e => (max (e.sets.getD 1) 1).toNat) =
      workout.main.map setCost := by
    apply List.map_congr_left
    intro e _
    exact (setCost_eq e).symm
  have hinit : callsLeft workout (initialSession st).player =
      max workout.warmup.length 1 + (workout.main.map setCost).sum +
        workout.cooldown.length := by
    rw [callsLeft_warmup workout _ rfl]
    rfl
  refine ⟨callsLeft workout (initialSession st).player, ?_, ?_, ?_⟩
  · rw [hmap, hinit]
  · exact advanceN_reaches_complete workout now _ _ (le_refl _)
  · intro m hm
    exact advanceN_reaches_complete workout now m _ hm

/-! ## Two sessions in a row (C30) -/

/-- C30: starting a session over a history and finalizing it yields the old
history followed by the finalized record, one entry longer; a second session
started and finalized afterwards again adds exactly one entry, its finalized
record, and leaves the earlier entries as they are. -/
theorem two_sessions_history (st : LocalStorage) (first second : Workout)
    (started finished started2 finished2 : Nat) (p q : PlayerState) :
    (completeWorkout first finished
      { player := p, storage := handleStartWorkout first started st }).storage.workoutHistory =
      st.workoutHistory ++ [workoutRecord first finished p.timer] ∧
    (completeWorkout first finished
      { player := p,
        storage := handleStartWorkout first started st }).storage.workoutHistory.length =
      st.workoutHistory.length + 1 ∧
    (completeWorkout first finished
      { player := p, storage := handleStartWorkout first started st }).storage.workoutHistory.take
        st.workoutHistory.length = st.workoutHistory ∧
    (completeWorkout second finished2
      { player := q,
        storage := handleStartWorkout second started2
          (completeWorkout first finished
            { player := p,
              storage := handleStartWorkout first started st }).storage }).storage.workoutHistory =
      st.workoutHistory ++
        [workoutRecord first finished p.timer, workoutRecord second finished2 q.timer] ∧
    (completeWorkout second finished2
      { player := q,
        storage := handleStartWorkout second started2
          (completeWorkout first finished
            { player := p,
              storage := handleStartWorkout first started st
            }).storage }).storage.workoutHistory.length =
      (completeWorkout first finished
        { player := p,
          storage := handleStartWorkout first started st }).storage.workoutHistory.length + 1 := by
  have hone : ∀ (w : Workout) (t c : Nat) (r : PlayerState) (s : LocalStorage),
      (completeWorkout w c
        { player := r, storage := handleStartWorkout w t s }).storage.workoutHistory =
        s.workoutHistory ++ [workoutRecord w c r.timer] := by
    intro w t c r s
    have h := saveToHistory_concat_started s.workoutHistory
      { workout := w, startedAt := some t, completedAt := none, duration := none }
      (workoutRecord w c r.timer) rfl
    simpa [completeWorkout, handleStartWorkout] using h
  have h1 := hone first started finished p st
  have h2 := hone second started2 finished2 q
    (completeWorkout first finished
      { player := p, storage := handleStartWorkout first started st }).storage
  refine ⟨h1, ?_, ?_, ?_, ?_⟩
  · rw [h1]; simp
  · rw [h1]; simp
  · rw [h2, h1]; simp
  · rw [h2, h1]; simp

end FitForge
